import Mathlib

/-!
# Per-client rate limiter (`main.go`)

A shallow embedding of the gin middleware `perClientRateLimiter` and of its
background sweeper, together with the token bucket it relies on.

Conventions of the embedding:

* instants and durations are integers counting nanoseconds, as in Go's `time`
  package (`time.Second = 10^9`);
* the clock is passed explicitly: a request carries the two readings the
  handler takes, `seen` (the `time.Now()` stored in `lastSeen` on line 55) and
  `now` (the reading `Allow` takes for itself on line 56), with `seen <= now`
  in an execution; one sweep pass compares every entry against one instant;
* the map `clients` is an association list with unique keys; the pointers it
  stores are replaced by values that are written back after each mutation;
* the critical sections are serialised by the mutex, so a concurrent execution
  is a sequence of requests and sweep passes; each of them also yields the
  trace of the mutex and gin operations it performs, in program order;
* `net.SplitHostPort` belongs to Go's standard library and is a parameter of
  the handler.
-/

set_option autoImplicit false

namespace RateLimiter

/-- Instants and durations, in nanoseconds. -/
abbrev Time := Int

/-- Go's `time.Second`. -/
def Second : Int := 1000000000

/-- Go's `time.Minute`. -/
def Minute : Int := 60 * Second

/-- Modelled from the spec: the token bucket behind `rate.Limiter`
(golang.org/x/time/rate) is a library whose source is not part of the
repository. Section 3 of the specification gives its attributes: the refill
rate in tokens per second, the burst capacity, the real-valued number of
available tokens and the instant of the last refill. Real numbers are exact
rationals here. -/
structure TokenBucket where
  rate : ℚ
  capacity : Int
  available : ℚ
  lastRefillTime : Time
deriving DecidableEq

/-- Modelled from the spec: `rate.NewLimiter(r, b)` is library code missing
from the repository. A fresh bucket is full (its first `b` probes admit); the
constructor reads no clock, and the refill clock of the bucket runs from the
instant `now` of its first probe, which follows within the same critical
section. -/
def NewLimiter (r : ℚ) (b : Int) (now : Time) : TokenBucket :=
  { rate := r, capacity := b, available := b, lastRefillTime := now }

/-- Modelled from the spec: the refill step of `tryConsume` (section 4.1,
steps 1 and 2) of the library bucket, whose source is missing from the
repository: the time elapsed since `lastRefillTime`, in seconds, times `rate`
is added to `available`, and the sum is capped at `capacity`. -/
def TokenBucket.refilled (tb : TokenBucket) (now : Time) : ℚ :=
  let elapsed : ℚ := ((now - tb.lastRefillTime : Int) : ℚ) / (Second : ℚ)
  min (tb.capacity : ℚ) (tb.available + elapsed * tb.rate)

/-- Modelled from the spec: `Allow` of `rate.Limiter` is library code missing
from the repository; this is `tryConsume` of section 4.1. (1) compute the time
elapsed since `lastRefillTime`; (2) increase `available` by `elapsed * rate`,
capped at `capacity`, and set `lastRefillTime` to now; (3) if `available >= 1`
subtract one and admit, else deny. -/
def TokenBucket.tryConsume (tb : TokenBucket) (now : Time) : TokenBucket × Bool :=
  if 1 ≤ tb.refilled now then
    ({ tb with available := tb.refilled now - 1, lastRefillTime := now }, true)
  else
    ({ tb with available := tb.refilled now, lastRefillTime := now }, false)

/-- The local type `client` of `perClientRateLimiter`. -/
structure client where
  limiter : TokenBucket
  lastSeen : Time
deriving DecidableEq

/-- The map `clients` of `perClientRateLimiter`, keyed by IP address. -/
abbrev Clients := AList (fun _ : String => client)

/-- A JSON object handed to `c.JSON`: its fields in source order. -/
abbrev Obj := List (String × String)

/-- Operations on the mutex and on the gin context, recorded in program order. -/
inductive Event where
  | Lock
  | Unlock
  | JSON (code : Nat) (obj : Obj)
  | Abort
  | Next
  | Sleep (d : Int)
deriving DecidableEq

/-- The object `gin.H` written on line 46. -/
def parseErrorBody : Obj :=
  [("status", "error"), ("message", "Unable to parse IP address")]

/-- The `Message` value written on lines 59-64, with its JSON field names. -/
def capacityMessage : Obj :=
  [("status", "Request Failed"), ("body", "The API is at capacity, try again later.")]

/-- Lines 52-54: the entry found under `ip`, or else the one that is created,
whose `lastSeen` is still the zero value; `now` is the instant at which the
bucket is then probed. -/
def getOrCreate (r : ℚ) (b : Int) (now : Time) (clients : Clients) (ip : String) : client :=
  (clients.lookup ip).getD { limiter := NewLimiter r b now, lastSeen := 0 }

/-- The handler returned by `perClientRateLimiter(r, b)` (lines 42-70), run on
a request with the given `RemoteAddr` against the map `clients`; `seen` is the
clock reading of line 55 and `now` the one `Allow` takes on line 56. It returns
the map it leaves behind and its trace. -/
def perClientRateLimiter (SplitHostPort : String → Option (String × String))
    (r : ℚ) (b : Int) (seen now : Time) (RemoteAddr : String) (clients : Clients) :
    Clients × List Event :=
  match SplitHostPort RemoteAddr with
  | none => (clients, [Event.JSON 500 parseErrorBody, Event.Abort])
  | some (ip, _) =>
    -- lines 52-54: the entry that is found, or the one that is created
    let c : client := getOrCreate r b now clients ip
    -- line 55: lastSeen is set at `seen`; line 56: the limiter is probed at `now`
    let res := c.limiter.tryConsume now
    let clients1 : Clients := clients.insert ip { limiter := res.1, lastSeen := seen }
    if !res.2 then
      (clients1, [Event.Lock, Event.Unlock, Event.JSON 429 capacityMessage, Event.Abort])
    else
      (clients1, [Event.Lock, Event.Unlock, Event.Next])

/-- The loop of lines 33-37 over the entries of the map: an entry whose
`lastSeen` lies more than three minutes before `now` is deleted. -/
def sweepLoop (now : Time) : List (Sigma fun _ : String => client) → Clients → Clients
  | [], clients => clients
  | e :: rest, clients =>
    sweepLoop now rest (if now - e.2.lastSeen > 3 * Minute then clients.erase e.1 else clients)

/-- One iteration of the sweeper goroutine (lines 30-38) whose sleep ends at
instant `now`. -/
def sweep (now : Time) (clients : Clients) : Clients × List Event :=
  (sweepLoop now clients.entries clients, [Event.Sleep Minute, Event.Lock, Event.Unlock])

/-- The endpoint `normalEndpointHandler`. -/
def normalEndpointHandler : List Event :=
  [Event.JSON 200 [("status", "Successful"), ("body", "You have accessed the normal endpoint!")]]

/-- The endpoint `strictEndpointHandler`. -/
def strictEndpointHandler : List Event :=
  [Event.JSON 200 [("status", "Successful"), ("body", "You have accessed the strict endpoint!")]]

/-- Modelled from the spec: the request pipeline (gin) is an external
collaborator. A route registered with one middleware and one endpoint runs the
middleware; `c.Next()` runs the endpoint in place unless the chain was aborted
or the endpoint already ran, `c.Abort()` prevents it from running later, and
an endpoint that neither ran nor was aborted runs once the middleware returns.
The flags record whether the chain was aborted and whether the endpoint ran. -/
def dispatch (endpoint : List Event) : List Event → Bool → Bool → List Event
  | [], aborted, ran => if aborted || ran then [] else endpoint
  | Event.Next :: es, aborted, ran =>
    Event.Next :: ((if aborted || ran then [] else endpoint) ++ dispatch endpoint es aborted true)
  | Event.Abort :: es, _, ran => Event.Abort :: dispatch endpoint es true ran
  | Event.Lock :: es, aborted, ran => Event.Lock :: dispatch endpoint es aborted ran
  | Event.Unlock :: es, aborted, ran => Event.Unlock :: dispatch endpoint es aborted ran
  | Event.JSON code obj :: es, aborted, ran =>
    Event.JSON code obj :: dispatch endpoint es aborted ran
  | Event.Sleep d :: es, aborted, ran => Event.Sleep d :: dispatch endpoint es aborted ran

/-- The route `/ping_normal` of `main` (line 93). -/
def pingNormal (SplitHostPort : String → Option (String × String)) (seen now : Time)
    (RemoteAddr : String) (clients : Clients) : Clients × List Event :=
  let res := perClientRateLimiter SplitHostPort 5 10 seen now RemoteAddr clients
  (res.1, dispatch normalEndpointHandler res.2 false false)

/-- The route `/ping_strict` of `main` (line 96). -/
def pingStrict (SplitHostPort : String → Option (String × String)) (seen now : Time)
    (RemoteAddr : String) (clients : Clients) : Clients × List Event :=
  let res := perClientRateLimiter SplitHostPort 1 2 seen now RemoteAddr clients
  (res.1, dispatch strictEndpointHandler res.2 false false)

/-- The status code of the response: the code of the first `c.JSON` of a trace. -/
def status : List Event → Option Nat
  | [] => none
  | Event.JSON code _ :: _ => some code
  | _ :: es => status es

/-- What happens to one gate: a request arrives, with the two clock readings
its handler takes, or the sweeper wakes up. -/
inductive Action where
  | request (RemoteAddr : String) (seen now : Time)
  | sweep (now : Time)
deriving DecidableEq

/-- The instant of the first clock reading of an action. -/
def Action.start : Action → Time
  | Action.request _ seen _ => seen
  | Action.sweep now => now

/-- The instant of the last clock reading of an action; for a request, the
instant at which its bucket is probed. -/
def Action.time : Action → Time
  | Action.request _ _ now => now
  | Action.sweep now => now

/-- Whether an action is a request. -/
def Action.isRequest : Action → Bool
  | Action.request _ _ _ => true
  | Action.sweep _ => false

/-- Whether a sequence of actions is ordered in time from instant `T` on: the
two readings of a request are in order, and every action starts no earlier than
`T` and no earlier than the action before it ended. -/
def timeOrderedFrom : Time → List Action → Bool
  | _, [] => true
  | T, a :: as =>
    decide (T ≤ a.start) && decide (a.start ≤ a.time) && timeOrderedFrom a.time as

/-- Whether a sequence of actions is ordered in time. -/
def timeOrdered : List Action → Bool
  | [] => true
  | a :: as => timeOrderedFrom a.start (a :: as)

/-- Whether the two clock readings of every request of the sequence are at most
`gap` nanoseconds apart. -/
def readingsWithin (gap : Int) : List Action → Bool
  | [] => true
  | Action.request _ seen now :: as => decide (now - seen ≤ gap) && readingsWithin gap as
  | Action.sweep _ :: as => readingsWithin gap as

/-- One action on the gate built by `perClientRateLimiter(r, b)`. -/
def step (SplitHostPort : String → Option (String × String)) (r : ℚ) (b : Int)
    (clients : Clients) : Action → Clients × List Event
  | Action.request RemoteAddr seen now =>
    perClientRateLimiter SplitHostPort r b seen now RemoteAddr clients
  | Action.sweep now => sweep now clients

/-- The map left by a sequence of actions, the mutex serialising them in this order. -/
def run (SplitHostPort : String → Option (String × String)) (r : ℚ) (b : Int) :
    Clients → List Action → Clients
  | clients, [] => clients
  | clients, a :: as => run SplitHostPort r b (step SplitHostPort r b clients a).1 as

/-- The traces of the requests of a sequence of actions, in order. -/
def traces (SplitHostPort : String → Option (String × String)) (r : ℚ) (b : Int) :
    Clients → List Action → List (List Event)
  | _, [] => []
  | clients, Action.request RemoteAddr seen now :: as =>
    (perClientRateLimiter SplitHostPort r b seen now RemoteAddr clients).2 ::
      traces SplitHostPort r b
        (perClientRateLimiter SplitHostPort r b seen now RemoteAddr clients).1 as
  | clients, Action.sweep now :: as => traces SplitHostPort r b (sweep now clients).1 as

/-- Whether a trace respects the mutex: `held` tells whether the mutex is held
when the trace starts. A lock is taken only when free, an unlock happens only
when held, nothing is written or forwarded and the task does not sleep while
the mutex is held, and the mutex is free when the trace ends. -/
def lockDiscipline : Bool → List Event → Bool
  | held, [] => !held
  | held, Event.Lock :: es => !held && lockDiscipline true es
  | held, Event.Unlock :: es => held && lockDiscipline false es
  | held, Event.JSON _ _ :: es => !held && lockDiscipline held es
  | held, Event.Next :: es => !held && lockDiscipline held es
  | held, Event.Sleep _ :: es => !held && lockDiscipline held es
  | held, Event.Abort :: es => lockDiscipline held es

/-- The scan of `splitAtColon`: `host` holds the characters read so far, reversed. -/
def splitAtColonLoop : List Char → List Char → Option (String × String)
  | [], _ => none
  | c :: cs, host =>
    if c = ':' then some (String.mk host.reverse, String.mk cs)
    else splitAtColonLoop cs (c :: host)

/-- A stand-in for `net.SplitHostPort` used in examples: the text before the
first colon is the host, the rest the port; an address without a colon fails. -/
def splitAtColon (s : String) : Option (String × String) :=
  splitAtColonLoop s.data []

/-- Whether an action is a request whose address parses to the identifier `ip`. -/
def Action.isRequestFrom (SplitHostPort : String → Option (String × String)) (ip : String) :
    Action → Bool
  | Action.request RemoteAddr _ _ =>
    match SplitHostPort RemoteAddr with
    | some (host, _) => host == ip
    | none => false
  | Action.sweep _ => false

/-- The traces of the requests of client `ip` within a sequence of actions. -/
def tracesFor (SplitHostPort : String → Option (String × String)) (r : ℚ) (b : Int)
    (ip : String) : Clients → List Action → List (List Event)
  | _, [] => []
  | clients, a :: as =>
    if a.isRequestFrom SplitHostPort ip then
      (step SplitHostPort r b clients a).2 ::
        tracesFor SplitHostPort r b ip (step SplitHostPort r b clients a).1 as
    else tracesFor SplitHostPort r b ip (step SplitHostPort r b clients a).1 as

/-- The instants of the requests of client `ip` within a sequence of actions. -/
def requestTimes (SplitHostPort : String → Option (String × String)) (ip : String) :
    List Action → List Time
  | [] => []
  | a :: as =>
    if a.isRequestFrom SplitHostPort ip then a.time :: requestTimes SplitHostPort ip as
    else requestTimes SplitHostPort ip as

/-- Whether no sweep pass of the sequence deletes the entry of `ip`: at every
sweep the entry is absent or was seen at most three minutes before. -/
def neverEvicted (SplitHostPort : String → Option (String × String)) (r : ℚ) (b : Int)
    (ip : String) : Clients → List Action → Bool
  | _, [] => true
  | clients, Action.request RemoteAddr seen now :: as =>
    neverEvicted SplitHostPort r b ip
      (perClientRateLimiter SplitHostPort r b seen now RemoteAddr clients).1 as
  | clients, Action.sweep now :: as =>
    (match clients.lookup ip with
      | some c => decide (¬ now - c.lastSeen > 3 * Minute)
      | none => true) &&
    neverEvicted SplitHostPort r b ip (sweep now clients).1 as

/-- The verdict the gate gave: whether the trace reaches `c.Next()`. -/
def admitted (trace : List Event) : Bool := decide (Event.Next ∈ trace)

/-- One single token bucket probed at the given instants: the verdicts of its
successive `tryConsume` calls. -/
def bucketVerdicts (tb : TokenBucket) : List Time → List Bool
  | [] => []
  | t :: ts => (tb.tryConsume t).2 :: bucketVerdicts (tb.tryConsume t).1 ts

/-- One single token bucket probed at the given instants: the bucket it ends as. -/
def bucketAfter (tb : TokenBucket) : List Time → TokenBucket
  | [] => tb
  | t :: ts => bucketAfter (tb.tryConsume t).1 ts

/-- The verdicts of one single bucket with rate `r` and burst `b`, created
when it is first probed. -/
def singleBucketVerdicts (r : ℚ) (b : Int) : List Time → List Bool
  | [] => []
  | t :: ts => bucketVerdicts (NewLimiter r b t) (t :: ts)

/-- The bucket that one single bucket with rate `r` and burst `b`, created when
it is first probed, ends as; none when it was never probed. -/
def singleBucketAfter (r : ℚ) (b : Int) : List Time → Option TokenBucket
  | [] => none
  | t :: ts => some (bucketAfter (NewLimiter r b t) (t :: ts))

/-- The status codes the route `/ping_strict` answers to a sequence of requests,
each given by its remote address and its two clock readings. -/
def strictStatuses (SplitHostPort : String → Option (String × String)) :
    Clients → List (String × Time × Time) → List (Option Nat)
  | _, [] => []
  | clients, (RemoteAddr, seen, now) :: rest =>
    status (pingStrict SplitHostPort seen now RemoteAddr clients).2 ::
      strictStatuses SplitHostPort (pingStrict SplitHostPort seen now RemoteAddr clients).1 rest

/-- What holds of every entry of a gate built with rate `r` and burst `b`,
whose requests take their two clock readings at most `gap` apart and whose
latest action ended at instant `T`: the bucket carries the configuration of the
gate, holds no debt, and was last refilled no earlier than the client was last
seen, at most `gap` later, and not in the future. -/
def entryOK (r : ℚ) (b : Int) (gap : Int) (T : Time) (c : client) : Prop :=
  c.limiter.rate = r ∧ c.limiter.capacity = b ∧ 0 ≤ c.limiter.available ∧
    c.lastSeen ≤ c.limiter.lastRefillTime ∧ c.limiter.lastRefillTime - c.lastSeen ≤ gap ∧
    c.limiter.lastRefillTime ≤ T

/-- The relation between the map of a run with sweep passes (`swept`) and the
map of the same run without them (`kept`), at instant `T`: they hold the same
entries, except that an entry last seen more than three minutes ago may be
missing from the swept one. -/
def simulates (r : ℚ) (b : Int) (gap : Int) (T : Time) (swept kept : Clients) : Prop :=
  ∀ ip : String,
    (kept.lookup ip = none → swept.lookup ip = none) ∧
      ∀ c : client, kept.lookup ip = some c →
        entryOK r b gap T c ∧
          (swept.lookup ip = some c ∨ (swept.lookup ip = none ∧ T - c.lastSeen > 3 * Minute))

/-- Every bucket of the map has capacity `b`. -/
def capacityIs (b : Int) (clients : Clients) : Prop :=
  ∀ (ip : String) (c : client), clients.lookup ip = some c → c.limiter.capacity = b

/-- The trace of an admitted request. -/
def admitTrace : List Event := [Event.Lock, Event.Unlock, Event.Next]

/-- The trace of a denied request. -/
def denyTrace : List Event :=
  [Event.Lock, Event.Unlock, Event.JSON 429 capacityMessage, Event.Abort]

/-- The trace of a request whose address does not parse. -/
def parseFailureTrace : List Event := [Event.JSON 500 parseErrorBody, Event.Abort]

/-- The trace the handler leaves for a verdict of the bucket. -/
def verdictTrace (verdict : Bool) : List Event :=
  if verdict then admitTrace else denyTrace

/-! ## The token bucket -/

theorem tryConsume_of_one_le {tb : TokenBucket} {now : Time} (h : 1 ≤ tb.refilled now) :
    tb.tryConsume now =
      ({ tb with available := tb.refilled now - 1, lastRefillTime := now }, true) := by
  simp [TokenBucket.tryConsume, h]

theorem tryConsume_of_lt_one {tb : TokenBucket} {now : Time} (h : ¬ 1 ≤ tb.refilled now) :
    tb.tryConsume now =
      ({ tb with available := tb.refilled now, lastRefillTime := now }, false) := by
  simp [TokenBucket.tryConsume, h]

theorem tryConsume_verdict (tb : TokenBucket) (now : Time) :
    (tb.tryConsume now).2 = true ↔ 1 ≤ tb.refilled now := by
  by_cases h : 1 ≤ tb.refilled now
  · simp [tryConsume_of_one_le h, h]
  · simp [tryConsume_of_lt_one h, h]

theorem tryConsume_rate (tb : TokenBucket) (now : Time) :
    (tb.tryConsume now).1.rate = tb.rate := by
  by_cases h : 1 ≤ tb.refilled now
  · rw [tryConsume_of_one_le h]
  · rw [tryConsume_of_lt_one h]

theorem tryConsume_capacity (tb : TokenBucket) (now : Time) :
    (tb.tryConsume now).1.capacity = tb.capacity := by
  by_cases h : 1 ≤ tb.refilled now
  · rw [tryConsume_of_one_le h]
  · rw [tryConsume_of_lt_one h]

theorem tryConsume_lastRefillTime (tb : TokenBucket) (now : Time) :
    (tb.tryConsume now).1.lastRefillTime = now := by
  by_cases h : 1 ≤ tb.refilled now
  · rw [tryConsume_of_one_le h]
  · rw [tryConsume_of_lt_one h]

theorem tryConsume_available (tb : TokenBucket) (now : Time) :
    (tb.tryConsume now).1.available =
      if 1 ≤ tb.refilled now then tb.refilled now - 1 else tb.refilled now := by
  by_cases h : 1 ≤ tb.refilled now
  · rw [tryConsume_of_one_le h, if_pos h]
  · rw [tryConsume_of_lt_one h, if_neg h]

theorem refilled_le_capacity (tb : TokenBucket) (now : Time) :
    tb.refilled now ≤ (tb.capacity : ℚ) :=
  min_le_left _ _

theorem Second_pos : (0 : ℚ) < ((Second : Int) : ℚ) := by
  norm_num [Second]

theorem refilled_same_instant {r : ℚ} {b : Int} {a : ℚ} {now : Time} (h : a ≤ (b : ℚ)) :
    TokenBucket.refilled { rate := r, capacity := b, available := a, lastRefillTime := now } now
      = a := by
  simp [TokenBucket.refilled, h]

/-! ## The handler, one request at a time -/

theorem gate_parse_failure {SplitHostPort : String → Option (String × String)} {r : ℚ} {b : Int}
    {seen now : Time} {RemoteAddr : String} {clients : Clients} (h : SplitHostPort RemoteAddr = none) :
    perClientRateLimiter SplitHostPort r b seen now RemoteAddr clients =
      (clients, parseFailureTrace) := by
  simp [perClientRateLimiter, h, parseFailureTrace]

theorem gate_parsed {SplitHostPort : String → Option (String × String)} {r : ℚ} {b : Int}
    {seen now : Time} {RemoteAddr : String} {clients : Clients} {ip port : String}
    (h : SplitHostPort RemoteAddr = some (ip, port)) :
    perClientRateLimiter SplitHostPort r b seen now RemoteAddr clients =
      (clients.insert ip
          { limiter := ((getOrCreate r b now clients ip).limiter.tryConsume now).1,
            lastSeen := seen },
        if ((getOrCreate r b now clients ip).limiter.tryConsume now).2
        then admitTrace else denyTrace) := by
  simp only [perClientRateLimiter, h, admitTrace, denyTrace]
  split <;> simp_all

theorem status_admitTrace : status admitTrace = none := rfl

theorem status_denyTrace : status denyTrace = some 429 := rfl

theorem gate_lookup_of_ne {SplitHostPort : String → Option (String × String)} {r : ℚ} {b : Int}
    {seen now : Time} {RemoteAddr : String} {clients : Clients} {ip port other : String}
    (h : SplitHostPort RemoteAddr = some (ip, port)) (hne : ip ≠ other) :
    (perClientRateLimiter SplitHostPort r b seen now RemoteAddr clients).1.lookup other =
      clients.lookup other := by
  rw [gate_parsed h]
  exact AList.lookup_insert_ne (Ne.symm hne)

theorem gate_lookup_self {SplitHostPort : String → Option (String × String)} {r : ℚ} {b : Int}
    {seen now : Time} {RemoteAddr : String} {clients : Clients} {ip port : String}
    (h : SplitHostPort RemoteAddr = some (ip, port)) :
    (perClientRateLimiter SplitHostPort r b seen now RemoteAddr clients).1.lookup ip =
      some { limiter := ((getOrCreate r b now clients ip).limiter.tryConsume now).1,
             lastSeen := seen } := by
  rw [gate_parsed h]
  exact AList.lookup_insert _

theorem gate_trace {SplitHostPort : String → Option (String × String)} {r : ℚ} {b : Int}
    {seen now : Time} {RemoteAddr : String} {clients : Clients} {ip port : String}
    (h : SplitHostPort RemoteAddr = some (ip, port)) :
    (perClientRateLimiter SplitHostPort r b seen now RemoteAddr clients).2 =
      if ((getOrCreate r b now clients ip).limiter.tryConsume now).2
      then admitTrace else denyTrace := by
  rw [gate_parsed h]

/-! ## The sweep loop -/

theorem lookup_sweepLoop (now : Time) (l : List (Sigma fun _ : String => client))
    (clients : Clients) (ip : String) :
    (sweepLoop now l clients).lookup ip =
      if ∃ e ∈ l, e.1 = ip ∧ now - e.2.lastSeen > 3 * Minute then none
      else clients.lookup ip := by
  induction l generalizing clients with
  | nil => simp [sweepLoop]
  | cons e rest ih =>
    rw [sweepLoop, ih]
    by_cases hrest : ∃ e' ∈ rest, e'.1 = ip ∧ now - e'.2.lastSeen > 3 * Minute
    · have hall : ∃ e' ∈ e :: rest, e'.1 = ip ∧ now - e'.2.lastSeen > 3 * Minute := by
        obtain ⟨e', he', h'⟩ := hrest
        exact ⟨e', List.mem_cons_of_mem _ he', h'⟩
      rw [if_pos hrest, if_pos hall]
    · rw [if_neg hrest]
      by_cases hstale : now - e.2.lastSeen > 3 * Minute
      · rw [if_pos hstale]
        by_cases hip : e.1 = ip
        · have hall : ∃ e' ∈ e :: rest, e'.1 = ip ∧ now - e'.2.lastSeen > 3 * Minute :=
            ⟨e, List.mem_cons_self _ _, hip, hstale⟩
          rw [if_pos hall, ← hip]
          exact AList.lookup_erase _ _
        · have hall : ¬ ∃ e' ∈ e :: rest, e'.1 = ip ∧ now - e'.2.lastSeen > 3 * Minute := by
            rintro ⟨e', he', h1, h2⟩
            rcases List.mem_cons.1 he' with rfl | he'
            · exact hip h1
            · exact hrest ⟨e', he', h1, h2⟩
          rw [if_neg hall]
          exact AList.lookup_erase_ne (Ne.symm hip)
      · rw [if_neg hstale]
        have hall : ¬ ∃ e' ∈ e :: rest, e'.1 = ip ∧ now - e'.2.lastSeen > 3 * Minute := by
          rintro ⟨e', he', h1, h2⟩
          rcases List.mem_cons.1 he' with rfl | he'
          · exact hstale h2
          · exact hrest ⟨e', he', h1, h2⟩
        rw [if_neg hall]

theorem lookup_sweep (now : Time) (clients : Clients) (ip : String) :
    (sweep now clients).1.lookup ip =
      match clients.lookup ip with
      | some c => if now - c.lastSeen > 3 * Minute then none else some c
      | none => none := by
  simp only [sweep]
  rw [lookup_sweepLoop]
  cases hl : clients.lookup ip with
  | none =>
    simp
  | some c =>
    have hmem : (⟨ip, c⟩ : Sigma fun _ : String => client) ∈ clients.entries :=
      AList.mem_lookup_iff.1 hl
    by_cases hstale : now - c.lastSeen > 3 * Minute
    · have hex : ∃ e ∈ clients.entries, e.1 = ip ∧ now - e.2.lastSeen > 3 * Minute :=
        ⟨⟨ip, c⟩, hmem, rfl, hstale⟩
      simp only [if_pos hex, if_pos hstale]
    · have hex : ¬ ∃ e ∈ clients.entries, e.1 = ip ∧ now - e.2.lastSeen > 3 * Minute := by
        rintro ⟨⟨k, c2⟩, he, h1, h2⟩
        simp only at h1 h2
        subst h1
        have h3 : c2 ∈ clients.lookup k := AList.mem_lookup_iff.2 he
        rw [hl] at h3
        have h4 : c = c2 := by simpa using h3
        subst h4
        exact hstale h2
      simp only [if_neg hex, if_neg hstale]

/-! ## An entry evolves on its own -/

theorem step_lookup_congr (SplitHostPort : String → Option (String × String)) (r : ℚ) (b : Int)
    (a : Action) (ip : String) {m1 m2 : Clients} (h : m1.lookup ip = m2.lookup ip) :
    (step SplitHostPort r b m1 a).1.lookup ip = (step SplitHostPort r b m2 a).1.lookup ip := by
  cases a with
  | sweep now =>
    simp only [step]
    rw [lookup_sweep, lookup_sweep, h]
  | request RemoteAddr seen now =>
    simp only [step]
    cases hs : SplitHostPort RemoteAddr with
    | none => rw [gate_parse_failure hs, gate_parse_failure hs]; exact h
    | some p =>
      obtain ⟨host, port⟩ := p
      by_cases hip : host = ip
      · subst hip
        rw [gate_lookup_self hs, gate_lookup_self hs, getOrCreate, getOrCreate, h]
      · rw [gate_lookup_of_ne hs hip, gate_lookup_of_ne hs hip]
        exact h

theorem step_trace_congr (SplitHostPort : String → Option (String × String)) (r : ℚ) (b : Int)
    (a : Action) (ip : String) {m1 m2 : Clients} (h : m1.lookup ip = m2.lookup ip)
    (ha : a.isRequestFrom SplitHostPort ip = true) :
    (step SplitHostPort r b m1 a).2 = (step SplitHostPort r b m2 a).2 := by
  cases a with
  | sweep now => rfl
  | request RemoteAddr seen now =>
    simp only [step]
    cases hs : SplitHostPort RemoteAddr with
    | none => simp [Action.isRequestFrom, hs] at ha
    | some p =>
      obtain ⟨host, port⟩ := p
      simp only [Action.isRequestFrom, hs, beq_iff_eq] at ha
      subst ha
      rw [gate_trace hs, gate_trace hs, getOrCreate, getOrCreate, h]

theorem step_lookup_of_other (SplitHostPort : String → Option (String × String)) (r : ℚ)
    (b : Int) (a : Action) {A B : String} (hAB : A ≠ B)
    (ha : a.isRequestFrom SplitHostPort A = true) (m : Clients) :
    (step SplitHostPort r b m a).1.lookup B = m.lookup B := by
  cases a with
  | sweep now => simp [Action.isRequestFrom] at ha
  | request RemoteAddr seen now =>
    simp only [step]
    cases hs : SplitHostPort RemoteAddr with
    | none => simp [Action.isRequestFrom, hs] at ha
    | some p =>
      obtain ⟨host, port⟩ := p
      simp only [Action.isRequestFrom, hs, beq_iff_eq] at ha
      subst ha
      exact gate_lookup_of_ne hs hAB

theorem isRequestFrom_unique (SplitHostPort : String → Option (String × String)) (a : Action)
    {A B : String} (hAB : A ≠ B) (ha : a.isRequestFrom SplitHostPort A = true) :
    a.isRequestFrom SplitHostPort B = false := by
  cases a with
  | sweep now => rfl
  | request RemoteAddr seen now =>
    cases hs : SplitHostPort RemoteAddr with
    | none => simp [Action.isRequestFrom, hs]
    | some p =>
      obtain ⟨host, port⟩ := p
      simp only [Action.isRequestFrom, hs, beq_iff_eq] at ha
      subst ha
      simp [Action.isRequestFrom, hs, hAB]

theorem tracesFor_without (SplitHostPort : String → Option (String × String)) (r : ℚ) (b : Int)
    {A B : String} (hAB : A ≠ B) (as : List Action) :
    ∀ m1 m2 : Clients, m1.lookup B = m2.lookup B →
      tracesFor SplitHostPort r b B m1 as =
        tracesFor SplitHostPort r b B m2
          (as.filter (fun a => !a.isRequestFrom SplitHostPort A)) := by
  induction as with
  | nil => intro m1 m2 _; rfl
  | cons a as ih =>
    intro m1 m2 h
    by_cases ha : a.isRequestFrom SplitHostPort A = true
    · have hB := isRequestFrom_unique SplitHostPort a hAB ha
      rw [List.filter_cons_of_neg (by simp [ha])]
      rw [tracesFor, if_neg (by simp [hB])]
      apply ih
      rw [step_lookup_of_other SplitHostPort r b a hAB ha]
      exact h
    · rw [List.filter_cons_of_pos (by simpa using ha)]
      have hnext := step_lookup_congr SplitHostPort r b a B h
      by_cases hB : a.isRequestFrom SplitHostPort B = true
      · rw [tracesFor, tracesFor, if_pos hB, if_pos hB,
          step_trace_congr SplitHostPort r b a B h hB, ih _ _ hnext]
      · rw [tracesFor, tracesFor, if_neg hB, if_neg hB, ih _ _ hnext]

/-! ## Requests of one client at one instant -/

theorem getOrCreate_of_lookup {r : ℚ} {b : Int} {now : Time} {clients : Clients} {ip : String}
    {c : client} (h : clients.lookup ip = some c) : getOrCreate r b now clients ip = c := by
  simp [getOrCreate, h]

theorem getOrCreate_of_absent {r : ℚ} {b : Int} {now : Time} {clients : Clients} {ip : String}
    (h : clients.lookup ip = none) :
    getOrCreate r b now clients ip = { limiter := NewLimiter r b now, lastSeen := 0 } := by
  simp [getOrCreate, h]

theorem gate_admit_same_instant {SplitHostPort : String → Option (String × String)} {r : ℚ}
    {b : Int} (seen : Time) {now : Time} {RemoteAddr : String} {clients : Clients} {ip port : String} {a : ℚ}
    (hs : SplitHostPort RemoteAddr = some (ip, port))
    (hc : (getOrCreate r b now clients ip).limiter =
      { rate := r, capacity := b, available := a, lastRefillTime := now })
    (hab : a ≤ (b : ℚ)) (ha : 1 ≤ a) :
    (perClientRateLimiter SplitHostPort r b seen now RemoteAddr clients).2 = admitTrace ∧
      (perClientRateLimiter SplitHostPort r b seen now RemoteAddr clients).1.lookup ip =
        some { limiter := { rate := r, capacity := b, available := a - 1, lastRefillTime := now },
               lastSeen := seen } := by
  have hr : TokenBucket.refilled
      { rate := r, capacity := b, available := a, lastRefillTime := now } now = a :=
    refilled_same_instant hab
  have h1 : 1 ≤ TokenBucket.refilled
      { rate := r, capacity := b, available := a, lastRefillTime := now } now := by
    rw [hr]; exact ha
  rw [gate_trace hs, gate_lookup_self hs, hc, tryConsume_of_one_le h1, hr]
  simp

theorem gate_deny_same_instant {SplitHostPort : String → Option (String × String)} {r : ℚ}
    {b : Int} (seen : Time) {now : Time} {RemoteAddr : String} {clients : Clients} {ip port : String} {a : ℚ}
    (hs : SplitHostPort RemoteAddr = some (ip, port))
    (hc : (getOrCreate r b now clients ip).limiter =
      { rate := r, capacity := b, available := a, lastRefillTime := now })
    (hab : a ≤ (b : ℚ)) (ha : a < 1) :
    (perClientRateLimiter SplitHostPort r b seen now RemoteAddr clients).2 = denyTrace ∧
      (perClientRateLimiter SplitHostPort r b seen now RemoteAddr clients).1.lookup ip =
        some { limiter := { rate := r, capacity := b, available := a, lastRefillTime := now },
               lastSeen := seen } := by
  have hr : TokenBucket.refilled
      { rate := r, capacity := b, available := a, lastRefillTime := now } now = a :=
    refilled_same_instant hab
  have h1 : ¬ 1 ≤ TokenBucket.refilled
      { rate := r, capacity := b, available := a, lastRefillTime := now } now := by
    rw [hr]; exact not_le.2 ha
  rw [gate_trace hs, gate_lookup_self hs, hc, tryConsume_of_lt_one h1, hr]
  simp

theorem traces_request (SplitHostPort : String → Option (String × String)) (r : ℚ) (b : Int)
    (clients : Clients) (RemoteAddr : String) (seen now : Time) (as : List Action) :
    traces SplitHostPort r b clients (Action.request RemoteAddr seen now :: as) =
      (perClientRateLimiter SplitHostPort r b seen now RemoteAddr clients).2 ::
        traces SplitHostPort r b
          (perClientRateLimiter SplitHostPort r b seen now RemoteAddr clients).1 as := by
  rw [traces]

theorem run_request (SplitHostPort : String → Option (String × String)) (r : ℚ) (b : Int)
    (clients : Clients) (RemoteAddr : String) (seen now : Time) (as : List Action) :
    run SplitHostPort r b clients (Action.request RemoteAddr seen now :: as) =
      run SplitHostPort r b
        (perClientRateLimiter SplitHostPort r b seen now RemoteAddr clients).1 as := by
  rw [run, step]

theorem drain_traces {SplitHostPort : String → Option (String × String)} {r : ℚ} {b : Int}
    {seen now : Time} {RemoteAddr : String} {ip port : String}
    (hs : SplitHostPort RemoteAddr = some (ip, port)) (j : Nat) :
    ∀ clients : Clients,
      (getOrCreate r b now clients ip).limiter =
          { rate := r, capacity := b, available := (j : ℚ), lastRefillTime := now } →
        ((j : ℚ) ≤ (b : ℚ)) →
          traces SplitHostPort r b clients
              (List.replicate (j + 1) (Action.request RemoteAddr seen now)) =
            List.replicate j admitTrace ++ [denyTrace] := by
  induction j with
  | zero =>
    intro clients hc hb
    have h := gate_deny_same_instant seen hs hc hb (by norm_num)
    simp [List.replicate, traces_request, traces, h.1]
  | succ j ih =>
    intro clients hc hb
    have h := gate_admit_same_instant seen hs hc hb (by push_cast; linarith [(Nat.cast_nonneg j : (0 : ℚ) ≤ j)])
    rw [List.replicate_succ (Action.request RemoteAddr seen now) (j + 1), traces_request, h.1,
      List.replicate_succ admitTrace j, List.cons_append]
    congr 1
    apply ih
    · rw [getOrCreate_of_lookup h.2]
      simp
    · push_cast at hb
      linarith

theorem burst_traces {SplitHostPort : String → Option (String × String)} {r : ℚ} {b : Int}
    {seen now : Time} {RemoteAddr : String} {ip port : String}
    (hs : SplitHostPort RemoteAddr = some (ip, port)) (k : Nat) :
    ∀ (clients : Clients) (a : ℚ),
      (getOrCreate r b now clients ip).limiter =
          { rate := r, capacity := b, available := a, lastRefillTime := now } →
        a ≤ (b : ℚ) → (k : ℚ) ≤ a →
          traces SplitHostPort r b clients
              (List.replicate k (Action.request RemoteAddr seen now)) =
            List.replicate k admitTrace := by
  induction k with
  | zero => intro clients a _ _ _; rfl
  | succ k ih =>
    intro clients a hc hab hk
    push_cast at hk
    have h := gate_admit_same_instant seen hs hc hab
      (by linarith [(Nat.cast_nonneg k : (0 : ℚ) ≤ k)])
    rw [List.replicate_succ (Action.request RemoteAddr seen now) k, traces_request, h.1,
      List.replicate_succ admitTrace k]
    congr 1
    exact ih _ (a - 1) (by rw [getOrCreate_of_lookup h.2]) (by linarith) (by linarith)

theorem fresh_burst_traces {SplitHostPort : String → Option (String × String)} {r : ℚ}
    {b : Int} {seen now : Time} {RemoteAddr : String} {clients : Clients} {ip port : String}
    (hs : SplitHostPort RemoteAddr = some (ip, port)) (hb : 0 ≤ b)
    (hnew : clients.lookup ip = none) :
    traces SplitHostPort r b clients
        (List.replicate b.toNat (Action.request RemoteAddr seen now)) =
      List.replicate b.toNat admitTrace := by
  have hcast : ((b.toNat : ℕ) : ℚ) = (b : ℚ) := by
    have h1 : ((b.toNat : ℕ) : Int) = b := Int.toNat_of_nonneg hb
    exact_mod_cast h1
  exact burst_traces hs b.toNat clients (b : ℚ) (by rw [getOrCreate_of_absent hnew]; rfl)
    le_rfl (le_of_eq hcast)

theorem admitTrace_ne_denyTrace : denyTrace ≠ admitTrace := by decide

theorem gate_trace_admit_iff {SplitHostPort : String → Option (String × String)} {r : ℚ}
    {b : Int} {seen now : Time} {RemoteAddr : String} {clients : Clients} {ip port : String}
    (hs : SplitHostPort RemoteAddr = some (ip, port)) :
    (perClientRateLimiter SplitHostPort r b seen now RemoteAddr clients).2 = admitTrace ↔
      1 ≤ (getOrCreate r b now clients ip).limiter.refilled now := by
  rw [gate_trace hs, ← tryConsume_verdict]
  by_cases h : ((getOrCreate r b now clients ip).limiter.tryConsume now).2 = true
  · simp [h]
  · simp [h, admitTrace_ne_denyTrace]

theorem gate_trace_deny_iff {SplitHostPort : String → Option (String × String)} {r : ℚ}
    {b : Int} {seen now : Time} {RemoteAddr : String} {clients : Clients} {ip port : String}
    (hs : SplitHostPort RemoteAddr = some (ip, port)) :
    (perClientRateLimiter SplitHostPort r b seen now RemoteAddr clients).2 = denyTrace ↔
      (getOrCreate r b now clients ip).limiter.refilled now < 1 := by
  rw [gate_trace hs, ← not_le, ← tryConsume_verdict]
  by_cases h : ((getOrCreate r b now clients ip).limiter.tryConsume now).2 = true
  · simp [h, admitTrace_ne_denyTrace.symm]
  · simp [h]

theorem admits_same_instant {SplitHostPort : String → Option (String × String)} {r : ℚ}
    {b : Int} {seen now : Time} {RemoteAddr : String} {ip port : String}
    (hs : SplitHostPort RemoteAddr = some (ip, port)) (k : Nat) :
    ∀ (clients : Clients) (a : ℚ),
      (getOrCreate r b now clients ip).limiter =
          { rate := r, capacity := b, available := a, lastRefillTime := now } →
        a ≤ (b : ℚ) →
          traces SplitHostPort r b clients
              (List.replicate k (Action.request RemoteAddr seen now)) =
            List.replicate k admitTrace →
          (k = 0 ∨ (k : ℚ) ≤ a) ∧
            (getOrCreate r b now
                (run SplitHostPort r b clients
                  (List.replicate k (Action.request RemoteAddr seen now))) ip).limiter =
              { rate := r, capacity := b, available := a - k, lastRefillTime := now } := by
  induction k with
  | zero =>
    intro clients a hc _ _
    refine ⟨Or.inl rfl, ?_⟩
    simpa [run] using hc
  | succ k ih =>
    intro clients a hc hab htr
    rw [List.replicate_succ (Action.request RemoteAddr seen now) k, traces_request,
      List.replicate_succ admitTrace k] at htr
    have hhead := (List.cons.inj htr).1
    have htail := (List.cons.inj htr).2
    have h1 : 1 ≤ a := by
      have := (gate_trace_admit_iff hs).1 hhead
      rwa [hc, refilled_same_instant hab] at this
    have hstep := gate_admit_same_instant seen hs hc hab h1
    have hnext := ih (perClientRateLimiter SplitHostPort r b seen now RemoteAddr clients).1 (a - 1)
      (by rw [getOrCreate_of_lookup hstep.2]) (by linarith) htail
    rw [List.replicate_succ (Action.request RemoteAddr seen now) k, run_request]
    refine ⟨Or.inr ?_, ?_⟩
    · rcases hnext.1 with h0 | hk
      · subst h0; simpa using h1
      · push_cast; linarith
    · rw [hnext.2]
      push_cast
      congr 1
      ring

theorem run_requests_lastSeen {SplitHostPort : String → Option (String × String)} {r : ℚ}
    {b : Int} {seen now : Time} {RemoteAddr : String} {ip port : String}
    (hs : SplitHostPort RemoteAddr = some (ip, port)) (k : Nat) :
    ∀ clients : Clients, ∃ tb : TokenBucket,
      (run SplitHostPort r b clients
          (List.replicate (k + 1) (Action.request RemoteAddr seen now))).lookup ip =
        some { limiter := tb, lastSeen := seen } := by
  induction k with
  | zero =>
    intro clients
    exact ⟨_, by simpa only [List.replicate, run, step] using
      @gate_lookup_self SplitHostPort r b seen now RemoteAddr clients ip port hs⟩
  | succ k ih =>
    intro clients
    rw [List.replicate_succ (Action.request RemoteAddr seen now) (k + 1), run_request]
    exact ih _

theorem gate_first_admitted {SplitHostPort : String → Option (String × String)} {r : ℚ}
    {b : Int} {seen now : Time} {RemoteAddr : String} {clients : Clients} {ip port : String}
    (hs : SplitHostPort RemoteAddr = some (ip, port))
    (hrate : (getOrCreate r b now clients ip).limiter.rate = r)
    (hcap : (getOrCreate r b now clients ip).limiter.capacity = b)
    (hadm : (perClientRateLimiter SplitHostPort r b seen now RemoteAddr clients).2 = admitTrace) :
    (perClientRateLimiter SplitHostPort r b seen now RemoteAddr clients).1.lookup ip =
      some { limiter := { rate := r, capacity := b,
                          available := (getOrCreate r b now clients ip).limiter.refilled now - 1,
                          lastRefillTime := now },
             lastSeen := seen } := by
  have h1 := (gate_trace_admit_iff hs).1 hadm
  rw [gate_lookup_self hs, tryConsume_of_one_le h1, hrate, hcap]

theorem drained_after_burst {SplitHostPort : String → Option (String × String)} {r : ℚ}
    {b : Int} {seen now : Time} {RemoteAddr : String} {clients : Clients} {ip port : String}
    (hs : SplitHostPort RemoteAddr = some (ip, port)) (hb : 1 ≤ b)
    (hcfg : ∀ c : client, clients.lookup ip = some c →
      c.limiter.rate = r ∧ c.limiter.capacity = b)
    (hadm : traces SplitHostPort r b clients
        (List.replicate b.toNat (Action.request RemoteAddr seen now)) =
      List.replicate b.toNat admitTrace) :
    (run SplitHostPort r b clients
        (List.replicate b.toNat (Action.request RemoteAddr seen now))).lookup ip =
      some { limiter := { rate := r, capacity := b, available := 0, lastRefillTime := now },
             lastSeen := seen } := by
  obtain ⟨k, hk⟩ : ∃ k : Nat, b.toNat = k + 1 := ⟨b.toNat - 1, by omega⟩
  have hbk : (b : ℚ) = (k : ℚ) + 1 := by
    have h1 : ((b.toNat : ℕ) : Int) = b := Int.toNat_of_nonneg (by omega)
    have h2 : (b : Int) = (k : Int) + 1 := by rw [← h1, hk]; push_cast; rfl
    exact_mod_cast h2
  have hrc : (getOrCreate r b now clients ip).limiter.rate = r ∧
      (getOrCreate r b now clients ip).limiter.capacity = b := by
    cases hl : clients.lookup ip with
    | none => rw [getOrCreate_of_absent hl]; exact ⟨rfl, rfl⟩
    | some c => rw [getOrCreate_of_lookup hl]; exact hcfg c hl
  rw [hk] at hadm ⊢
  rw [List.replicate_succ (Action.request RemoteAddr seen now) k, traces_request,
    List.replicate_succ admitTrace k] at hadm
  have hhead := (List.cons.inj hadm).1
  have htail := (List.cons.inj hadm).2
  have hfirst := gate_first_admitted hs hrc.1 hrc.2 hhead
  have hle : (getOrCreate r b now clients ip).limiter.refilled now ≤ (b : ℚ) := by
    have := refilled_le_capacity (getOrCreate r b now clients ip).limiter now
    rwa [hrc.2] at this
  have h1 : 1 ≤ (getOrCreate r b now clients ip).limiter.refilled now :=
    (gate_trace_admit_iff hs).1 hhead
  have hrest := admits_same_instant hs k
    (perClientRateLimiter SplitHostPort r b seen now RemoteAddr clients).1
    ((getOrCreate r b now clients ip).limiter.refilled now - 1)
    (by rw [getOrCreate_of_lookup hfirst]) (by linarith) htail
  rw [List.replicate_succ (Action.request RemoteAddr seen now) k, run_request]
  have hzero : (getOrCreate r b now clients ip).limiter.refilled now - 1 - (k : ℚ) = 0 := by
    rcases hrest.1 with h0 | hk2
    · subst h0
      have : (b : ℚ) = 1 := by simpa using hbk
      simp only [Nat.cast_zero, sub_zero]
      linarith
    · linarith
  have hfin := hrest.2
  rw [hzero] at hfin
  obtain ⟨tb, htb⟩ := @run_requests_lastSeen SplitHostPort r b seen now RemoteAddr ip port hs k clients
  rw [List.replicate_succ (Action.request RemoteAddr seen now) k, run_request] at htb
  rw [getOrCreate_of_lookup htb] at hfin
  simp only at hfin
  rw [htb, hfin]

/-! ## The entry of one client follows one bucket -/

theorem step_of_isRequestFrom {SplitHostPort : String → Option (String × String)} {r : ℚ}
    {b : Int} {a : Action} {ip : String} {clients : Clients} {c : client}
    (ha : a.isRequestFrom SplitHostPort ip = true) (hc : clients.lookup ip = some c) :
    (step SplitHostPort r b clients a).2 = verdictTrace (c.limiter.tryConsume a.time).2 ∧
      (step SplitHostPort r b clients a).1.lookup ip =
        some { limiter := (c.limiter.tryConsume a.time).1, lastSeen := a.start } := by
  cases a with
  | sweep now => simp [Action.isRequestFrom] at ha
  | request RemoteAddr seen now =>
    cases hs : SplitHostPort RemoteAddr with
    | none => simp [Action.isRequestFrom, hs] at ha
    | some p =>
      obtain ⟨host, port⟩ := p
      simp only [Action.isRequestFrom, hs, beq_iff_eq] at ha
      subst ha
      simp only [step, Action.time]
      rw [gate_trace hs, gate_lookup_self hs, getOrCreate_of_lookup hc]
      exact ⟨rfl, rfl⟩

theorem step_of_first_request {SplitHostPort : String → Option (String × String)} {r : ℚ}
    {b : Int} {a : Action} {ip : String} {clients : Clients}
    (ha : a.isRequestFrom SplitHostPort ip = true) (hc : clients.lookup ip = none) :
    (step SplitHostPort r b clients a).2 =
        verdictTrace ((NewLimiter r b a.time).tryConsume a.time).2 ∧
      (step SplitHostPort r b clients a).1.lookup ip =
        some { limiter := ((NewLimiter r b a.time).tryConsume a.time).1, lastSeen := a.start } := by
  cases a with
  | sweep now => simp [Action.isRequestFrom] at ha
  | request RemoteAddr seen now =>
    cases hs : SplitHostPort RemoteAddr with
    | none => simp [Action.isRequestFrom, hs] at ha
    | some p =>
      obtain ⟨host, port⟩ := p
      simp only [Action.isRequestFrom, hs, beq_iff_eq] at ha
      subst ha
      simp only [step, Action.time]
      rw [gate_trace hs, gate_lookup_self hs, getOrCreate_of_absent hc]
      exact ⟨rfl, rfl⟩

theorem step_lookup_of_not_from {SplitHostPort : String → Option (String × String)} {r : ℚ}
    {b : Int} {RemoteAddr : String} {seen now : Time} {ip : String} {clients : Clients}
    (ha : (Action.request RemoteAddr seen now).isRequestFrom SplitHostPort ip = false) :
    (perClientRateLimiter SplitHostPort r b seen now RemoteAddr clients).1.lookup ip =
      clients.lookup ip := by
  cases hs : SplitHostPort RemoteAddr with
  | none => rw [gate_parse_failure hs]
  | some p =>
    obtain ⟨host, port⟩ := p
    simp only [Action.isRequestFrom, hs, beq_eq_false_iff_ne] at ha
    exact gate_lookup_of_ne hs ha

theorem follows_bucket_of_present (SplitHostPort : String → Option (String × String)) (r : ℚ)
    (b : Int) (ip : String) (as : List Action) :
    ∀ (clients : Clients) (c : client), clients.lookup ip = some c →
      neverEvicted SplitHostPort r b ip clients as = true →
        tracesFor SplitHostPort r b ip clients as =
            (bucketVerdicts c.limiter (requestTimes SplitHostPort ip as)).map verdictTrace ∧
          ((run SplitHostPort r b clients as).lookup ip).map client.limiter =
            some (bucketAfter c.limiter (requestTimes SplitHostPort ip as)) := by
  induction as with
  | nil =>
    intro clients c hc _
    simp [tracesFor, requestTimes, bucketVerdicts, bucketAfter, run, hc]
  | cons a as ih =>
    intro clients c hc hne
    by_cases ha : a.isRequestFrom SplitHostPort ip = true
    · have hstep := @step_of_isRequestFrom SplitHostPort r b a ip clients c ha hc
      have hne2 : neverEvicted SplitHostPort r b ip (step SplitHostPort r b clients a).1 as
          = true := by
        cases a with
        | sweep now => simp [Action.isRequestFrom] at ha
        | request RemoteAddr seen now => simpa [neverEvicted, step] using hne
      have hrec := ih _ _ hstep.2 hne2
      rw [tracesFor, if_pos ha, requestTimes, if_pos ha, run, hstep.1, hrec.1, hrec.2]
      simp [bucketVerdicts, bucketAfter]
    · have hfalse : a.isRequestFrom SplitHostPort ip = false := by simpa using ha
      have hkeep : (step SplitHostPort r b clients a).1.lookup ip = some c ∧
          neverEvicted SplitHostPort r b ip (step SplitHostPort r b clients a).1 as = true := by
        cases a with
        | sweep now =>
          simp only [neverEvicted, hc, Bool.and_eq_true, decide_eq_true_eq] at hne
          simp only [step]
          refine ⟨?_, hne.2⟩
          rw [lookup_sweep, hc]
          simp only
          rw [if_neg hne.1]
        | request RemoteAddr seen now =>
          simp only [step]
          refine ⟨?_, by simpa [neverEvicted] using hne⟩
          rw [step_lookup_of_not_from hfalse]
          exact hc
      have hrec := ih _ _ hkeep.1 hkeep.2
      rw [tracesFor, if_neg ha, requestTimes, if_neg ha, run, hrec.1, hrec.2]
      exact ⟨rfl, rfl⟩

theorem follows_bucket_of_absent (SplitHostPort : String → Option (String × String)) (r : ℚ)
    (b : Int) (ip : String) (as : List Action) :
    ∀ clients : Clients, clients.lookup ip = none →
      neverEvicted SplitHostPort r b ip clients as = true →
        tracesFor SplitHostPort r b ip clients as =
            (singleBucketVerdicts r b (requestTimes SplitHostPort ip as)).map verdictTrace ∧
          ((run SplitHostPort r b clients as).lookup ip).map client.limiter =
            singleBucketAfter r b (requestTimes SplitHostPort ip as) := by
  induction as with
  | nil =>
    intro clients hc _
    simp [tracesFor, requestTimes, singleBucketVerdicts, singleBucketAfter, run, hc]
  | cons a as ih =>
    intro clients hc hne
    by_cases ha : a.isRequestFrom SplitHostPort ip = true
    · have hstep := @step_of_first_request SplitHostPort r b a ip clients ha hc
      have hne2 : neverEvicted SplitHostPort r b ip (step SplitHostPort r b clients a).1 as
          = true := by
        cases a with
        | sweep now => simp [Action.isRequestFrom] at ha
        | request RemoteAddr seen now => simpa [neverEvicted, step] using hne
      have hrec := follows_bucket_of_present SplitHostPort r b ip as _ _ hstep.2 hne2
      rw [tracesFor, if_pos ha, requestTimes, if_pos ha, run, hstep.1, hrec.1, hrec.2]
      simp [singleBucketVerdicts, singleBucketAfter, bucketVerdicts, bucketAfter]
    · have hfalse : a.isRequestFrom SplitHostPort ip = false := by simpa using ha
      have hkeep : (step SplitHostPort r b clients a).1.lookup ip = none ∧
          neverEvicted SplitHostPort r b ip (step SplitHostPort r b clients a).1 as = true := by
        cases a with
        | sweep now =>
          simp only [neverEvicted, hc, Bool.and_eq_true] at hne
          simp only [step]
          refine ⟨?_, hne.2⟩
          rw [lookup_sweep, hc]
        | request RemoteAddr seen now =>
          simp only [step]
          refine ⟨?_, by simpa [neverEvicted] using hne⟩
          rw [step_lookup_of_not_from hfalse]
          exact hc
      have hrec := ih _ hkeep.1 hkeep.2
      rw [tracesFor, if_neg ha, requestTimes, if_neg ha, run, hrec.1, hrec.2]
      exact ⟨rfl, rfl⟩

/-! ## The route `/ping_strict` -/

theorem tryConsume_of_refilled_eq {tb : TokenBucket} {now : Time} {x : ℚ}
    (hx : tb.refilled now = x) :
    tb.tryConsume now =
      if 1 ≤ x then
        ({ rate := tb.rate, capacity := tb.capacity, available := x - 1, lastRefillTime := now },
          true)
      else
        ({ rate := tb.rate, capacity := tb.capacity, available := x, lastRefillTime := now },
          false) := by
  subst hx
  by_cases h : 1 ≤ tb.refilled now
  · rw [tryConsume_of_one_le h, if_pos h]
  · rw [tryConsume_of_lt_one h, if_neg h]

theorem dispatch_verdictTrace (endpoint : List Event) (verdict : Bool) :
    dispatch endpoint (verdictTrace verdict) false false =
      if verdict then [Event.Lock, Event.Unlock, Event.Next] ++ endpoint else denyTrace := by
  cases verdict <;> simp [verdictTrace, admitTrace, denyTrace, dispatch]

theorem pingStrict_status {SplitHostPort : String → Option (String × String)} {seen now : Time}
    {RemoteAddr : String} {clients : Clients} {ip port : String}
    (hs : SplitHostPort RemoteAddr = some (ip, port)) :
    status (pingStrict SplitHostPort seen now RemoteAddr clients).2 =
      if ((getOrCreate 1 2 now clients ip).limiter.tryConsume now).2 then some 200
      else some 429 := by
  simp only [pingStrict]
  rw [gate_trace hs]
  cases ((getOrCreate 1 2 now clients ip).limiter.tryConsume now).2 <;>
    simp [admitTrace, denyTrace, dispatch, status, strictEndpointHandler]

theorem pingStrict_lookup {SplitHostPort : String → Option (String × String)} {seen now : Time}
    {RemoteAddr : String} {clients : Clients} {ip port : String}
    (hs : SplitHostPort RemoteAddr = some (ip, port)) :
    (pingStrict SplitHostPort seen now RemoteAddr clients).1.lookup ip =
      some { limiter := ((getOrCreate 1 2 now clients ip).limiter.tryConsume now).1,
             lastSeen := seen } := by
  simp only [pingStrict]
  exact gate_lookup_self hs

theorem strictStatuses_of_present {SplitHostPort : String → Option (String × String)}
    {RemoteAddr : String} {ip port : String}
    (hs : SplitHostPort RemoteAddr = some (ip, port)) (qs : List (Time × Time)) :
    ∀ (clients : Clients) (c : client), clients.lookup ip = some c →
      strictStatuses SplitHostPort clients (qs.map (fun q => (RemoteAddr, q.1, q.2))) =
        (bucketVerdicts c.limiter (qs.map Prod.snd)).map
          (fun v => if v then some 200 else some 429) := by
  induction qs with
  | nil => intro clients c _; rfl
  | cons q qs ih =>
    intro clients c hc
    simp only [List.map_cons, strictStatuses, bucketVerdicts]
    rw [pingStrict_status hs, ih _ _ (pingStrict_lookup hs), getOrCreate_of_lookup hc]

theorem strictStatuses_of_absent {SplitHostPort : String → Option (String × String)}
    {RemoteAddr : String} {ip port : String}
    (hs : SplitHostPort RemoteAddr = some (ip, port)) (q : Time × Time)
    (qs : List (Time × Time)) (clients : Clients) (hc : clients.lookup ip = none) :
    strictStatuses SplitHostPort clients ((q :: qs).map (fun q => (RemoteAddr, q.1, q.2))) =
      (singleBucketVerdicts 1 2 ((q :: qs).map Prod.snd)).map
        (fun v => if v then some 200 else some 429) := by
  simp only [List.map_cons, strictStatuses, singleBucketVerdicts, bucketVerdicts]
  rw [pingStrict_status hs, strictStatuses_of_present hs qs _ _ (pingStrict_lookup hs),
    getOrCreate_of_absent hc]

theorem strict_scenario_verdicts (t0 t1 t2 t3 : Time) (h01 : t0 ≤ t1) (h12 : t1 ≤ t2)
    (hfast : t2 - t0 < 1000000000) (hwait : t2 + 2000000000 ≤ t3) :
    singleBucketVerdicts 1 2 [t0, t1, t2, t3] = [true, true, false, true] := by
  have q01 : (t0 : ℚ) ≤ (t1 : ℚ) := by exact_mod_cast h01
  have q12 : (t1 : ℚ) ≤ (t2 : ℚ) := by exact_mod_cast h12
  have qfast : (t2 : ℚ) - (t0 : ℚ) < 1000000000 := by exact_mod_cast hfast
  have qwait : (t2 : ℚ) + 2000000000 ≤ (t3 : ℚ) := by exact_mod_cast hwait
  have s0 : (NewLimiter 1 2 t0).tryConsume t0 =
      ({ rate := 1, capacity := 2, available := 1, lastRefillTime := t0 }, true) := by
    have hx : (NewLimiter 1 2 t0).refilled t0 = 2 := by
      simp [TokenBucket.refilled, NewLimiter]
    rw [tryConsume_of_refilled_eq hx]
    norm_num [NewLimiter]
  have s1 : TokenBucket.tryConsume
        { rate := 1, capacity := 2, available := 1, lastRefillTime := t0 } t1 =
      ({ rate := 1, capacity := 2, available := ((t1 : ℚ) - t0) / 1000000000,
         lastRefillTime := t1 }, true) := by
    have hx : TokenBucket.refilled
        { rate := 1, capacity := 2, available := 1, lastRefillTime := t0 } t1 =
        1 + ((t1 : ℚ) - t0) / 1000000000 := by
      simp only [TokenBucket.refilled, Second]
      push_cast
      rw [min_eq_right]
      · ring
      · rw [mul_one]
        have : ((t1 : ℚ) - t0) / 1000000000 < 1 := by
          rw [div_lt_one (by norm_num)]; linarith
        linarith
    rw [tryConsume_of_refilled_eq hx]
    have hpos : (0 : ℚ) ≤ ((t1 : ℚ) - t0) / 1000000000 :=
      div_nonneg (by linarith) (by norm_num)
    rw [if_pos (by linarith)]
    simp
  have s2 : TokenBucket.tryConsume
        { rate := 1, capacity := 2, available := ((t1 : ℚ) - t0) / 1000000000,
          lastRefillTime := t1 } t2 =
      ({ rate := 1, capacity := 2, available := ((t2 : ℚ) - t0) / 1000000000,
         lastRefillTime := t2 }, false) := by
    have hlt : ((t2 : ℚ) - t0) / 1000000000 < 1 := by
      rw [div_lt_one (by norm_num)]; exact qfast
    have hx : TokenBucket.refilled
        { rate := 1, capacity := 2, available := ((t1 : ℚ) - t0) / 1000000000,
          lastRefillTime := t1 } t2 = ((t2 : ℚ) - t0) / 1000000000 := by
      simp only [TokenBucket.refilled, Second]
      push_cast
      have hsum : ((t1 : ℚ) - t0) / 1000000000 + ((t2 : ℚ) - t1) / 1000000000 * 1 =
          ((t2 : ℚ) - t0) / 1000000000 := by ring
      rw [hsum, min_eq_right (by linarith)]
    rw [tryConsume_of_refilled_eq hx, if_neg (not_le.2 hlt)]
  have s3 : (TokenBucket.tryConsume
        { rate := 1, capacity := 2, available := ((t2 : ℚ) - t0) / 1000000000,
          lastRefillTime := t2 } t3).2 = true := by
    rw [tryConsume_verdict]
    simp only [TokenBucket.refilled, Second]
    push_cast
    have hpos : (0 : ℚ) ≤ ((t2 : ℚ) - t0) / 1000000000 :=
      div_nonneg (by linarith) (by norm_num)
    have hbig : (2 : ℚ) ≤ ((t3 : ℚ) - t2) / 1000000000 := by
      rw [le_div_iff₀ (by norm_num)]; linarith
    rw [min_eq_left (by linarith)]
    norm_num
  simp only [singleBucketVerdicts, bucketVerdicts, s0, s1, s2, s3]

/-! ## Sweeping and verdicts -/

theorem refilled_nonneg {tb : TokenBucket} {now : Time} (hcap : 0 ≤ tb.capacity)
    (hav : 0 ≤ tb.available) (hrate : 0 ≤ tb.rate) (hlast : tb.lastRefillTime ≤ now) :
    0 ≤ tb.refilled now := by
  simp only [TokenBucket.refilled]
  have hc : (0 : ℚ) ≤ (tb.capacity : ℚ) := by exact_mod_cast hcap
  have he : (0 : ℚ) ≤ ((now - tb.lastRefillTime : Int) : ℚ) := by
    exact_mod_cast sub_nonneg.2 hlast
  have hdiv : (0 : ℚ) ≤ ((now - tb.lastRefillTime : Int) : ℚ) / ((Second : Int) : ℚ) :=
    div_nonneg he (le_of_lt Second_pos)
  exact le_min hc (add_nonneg hav (mul_nonneg hdiv hrate))

theorem available_nonneg_of_refilled {tb : TokenBucket} {now : Time}
    (h : 0 ≤ tb.refilled now) : 0 ≤ (tb.tryConsume now).1.available := by
  rw [tryConsume_available]
  split
  · linarith
  · exact h

theorem refilled_NewLimiter {r : ℚ} {b : Int} {now : Time} :
    (NewLimiter r b now).refilled now = (b : ℚ) := by
  simp [TokenBucket.refilled, NewLimiter]

theorem refilled_of_idle {r : ℚ} {b : Int} {gap : Int} {tb : TokenBucket} {now : Time}
    (hrate : tb.rate = r) (hcap : tb.capacity = b) (hav : 0 ≤ tb.available)
    (hrb : (b : ℚ) ≤ r * ((180000000000 - (gap : ℚ)) / 1000000000)) (hr : 0 ≤ r)
    (hidle : 3 * Minute - gap < now - tb.lastRefillTime) :
    tb.refilled now = (b : ℚ) := by
  simp only [TokenBucket.refilled, hrate, hcap]
  apply min_eq_left
  have hq : ((3 * Minute - gap : Int) : ℚ) < ((now - tb.lastRefillTime : Int) : ℚ) := by
    exact_mod_cast hidle
  have hconst : ((3 * Minute - gap : Int) : ℚ) = 180000000000 - (gap : ℚ) := by
    simp [Minute, Second]
  have hS : ((Second : Int) : ℚ) = 1000000000 := by simp [Second]
  have hle : (180000000000 - (gap : ℚ)) / 1000000000 ≤
      ((now - tb.lastRefillTime : Int) : ℚ) / ((Second : Int) : ℚ) := by
    rw [hS]
    apply div_le_div_of_nonneg_right _ (by norm_num)
    linarith
  have hmul : r * ((180000000000 - (gap : ℚ)) / 1000000000) ≤
      ((now - tb.lastRefillTime : Int) : ℚ) / ((Second : Int) : ℚ) * r := by
    rw [mul_comm r]
    exact mul_le_mul_of_nonneg_right hle hr
  linarith

theorem simulates_mono {r : ℚ} {b : Int} {gap : Int} {T T2 : Time} {ms mu : Clients}
    (hT : T ≤ T2) (h : simulates r b gap T ms mu) : simulates r b gap T2 ms mu := by
  intro ip
  refine ⟨(h ip).1, ?_⟩
  intro c hc
  obtain ⟨⟨h1, h2, h3, h4, h5, h6⟩, hcase⟩ := (h ip).2 c hc
  refine ⟨⟨h1, h2, h3, h4, h5, le_trans h6 hT⟩, ?_⟩
  rcases hcase with hsame | ⟨hnone, hidle⟩
  · exact Or.inl hsame
  · exact Or.inr ⟨hnone, lt_of_lt_of_le hidle (sub_le_sub_right hT _)⟩

theorem simulates_sweep {r : ℚ} {b : Int} {gap : Int} {T : Time} {ms mu : Clients}
    (h : simulates r b gap T ms mu) : simulates r b gap T (sweep T ms).1 mu := by
  intro ip
  constructor
  · intro hnone
    rw [lookup_sweep, (h ip).1 hnone]
  · intro c hc
    obtain ⟨hok, hcase⟩ := (h ip).2 c hc
    refine ⟨hok, ?_⟩
    rcases hcase with hsame | ⟨hnone, hidle⟩
    · rw [lookup_sweep, hsame]
      by_cases hstale : T - c.lastSeen > 3 * Minute
      · exact Or.inr ⟨by simp [hstale], hstale⟩
      · exact Or.inl (by simp [hstale])
    · exact Or.inr ⟨by rw [lookup_sweep, hnone], hidle⟩

theorem simulates_tryConsume {r : ℚ} {b : Int} {gap : Int} {T seen now : Time}
    {ms mu : Clients} (hb : 0 ≤ b) (hr : 0 ≤ r)
    (hrb : (b : ℚ) ≤ r * ((180000000000 - (gap : ℚ)) / 1000000000))
    (hT : T ≤ seen) (hsn : seen ≤ now) (hgap : now - seen ≤ gap)
    (h : simulates r b gap T ms mu) (ip : String) :
    (getOrCreate r b now ms ip).limiter.tryConsume now =
        (getOrCreate r b now mu ip).limiter.tryConsume now ∧
      entryOK r b gap now
        { limiter := ((getOrCreate r b now mu ip).limiter.tryConsume now).1,
          lastSeen := seen } := by
  have hbq : (0 : ℚ) ≤ (b : ℚ) := by exact_mod_cast hb
  cases hu : mu.lookup ip with
  | none =>
    have hs := (h ip).1 hu
    rw [getOrCreate_of_absent hs, getOrCreate_of_absent hu]
    refine ⟨rfl, ?_, ?_, ?_, ?_, ?_, ?_⟩
    · simp only; rw [tryConsume_rate]; rfl
    · simp only; rw [tryConsume_capacity]; rfl
    · simp only
      apply available_nonneg_of_refilled
      rw [refilled_NewLimiter]; exact hbq
    · simp only; rw [tryConsume_lastRefillTime]; exact hsn
    · simp only; rw [tryConsume_lastRefillTime]; exact hgap
    · simp only; rw [tryConsume_lastRefillTime]
  | some c =>
    obtain ⟨⟨h1, h2, h3, h4, h5, h6⟩, hcase⟩ := (h ip).2 c hu
    rw [getOrCreate_of_lookup hu]
    have hTnow : T ≤ now := le_trans hT hsn
    have hok : entryOK r b gap now
        { limiter := (c.limiter.tryConsume now).1, lastSeen := seen } := by
      refine ⟨?_, ?_, ?_, ?_, ?_, ?_⟩
      · simp only; rw [tryConsume_rate]; exact h1
      · simp only; rw [tryConsume_capacity]; exact h2
      · simp only
        apply available_nonneg_of_refilled
        exact refilled_nonneg (by rw [h2]; exact hb) h3 (by rw [h1]; exact hr)
          (le_trans h6 hTnow)
      · simp only; rw [tryConsume_lastRefillTime]; exact hsn
      · simp only; rw [tryConsume_lastRefillTime]; exact hgap
      · simp only; rw [tryConsume_lastRefillTime]
    refine ⟨?_, hok⟩
    rcases hcase with hsame | ⟨hnone, hidle⟩
    · rw [getOrCreate_of_lookup hsame]
    · rw [getOrCreate_of_absent hnone]
      have hx1 : (NewLimiter r b now).refilled now = (b : ℚ) := refilled_NewLimiter
      have hlong : 3 * Minute - gap < now - c.limiter.lastRefillTime := by
        have e1 : 3 * Minute < T - c.lastSeen := hidle
        linarith
      have hx2 : c.limiter.refilled now = (b : ℚ) :=
        refilled_of_idle h1 h2 h3 hrb hr hlong
      rw [tryConsume_of_refilled_eq hx1, tryConsume_of_refilled_eq hx2, h1, h2]
      rfl

theorem simulates_request {SplitHostPort : String → Option (String × String)} {r : ℚ}
    {b : Int} {gap : Int} {T seen now : Time} {ms mu : Clients} (hb : 0 ≤ b) (hr : 0 ≤ r)
    (hrb : (b : ℚ) ≤ r * ((180000000000 - (gap : ℚ)) / 1000000000))
    (hT : T ≤ seen) (hsn : seen ≤ now) (hgap : now - seen ≤ gap)
    (h : simulates r b gap T ms mu) (RemoteAddr : String) :
    (perClientRateLimiter SplitHostPort r b seen now RemoteAddr ms).2 =
        (perClientRateLimiter SplitHostPort r b seen now RemoteAddr mu).2 ∧
      simulates r b gap now (perClientRateLimiter SplitHostPort r b seen now RemoteAddr ms).1
        (perClientRateLimiter SplitHostPort r b seen now RemoteAddr mu).1 := by
  have h2 : simulates r b gap now ms mu := simulates_mono (le_trans hT hsn) h
  cases hs : SplitHostPort RemoteAddr with
  | none =>
    rw [gate_parse_failure hs, gate_parse_failure hs]
    exact ⟨rfl, h2⟩
  | some p =>
    obtain ⟨ip, port⟩ := p
    obtain ⟨heq, hok⟩ := simulates_tryConsume hb hr hrb hT hsn hgap h ip
    refine ⟨by rw [gate_trace hs, gate_trace hs, heq], ?_⟩
    intro k
    by_cases hk : ip = k
    · subst hk
      rw [gate_lookup_self hs, gate_lookup_self hs, heq]
      refine ⟨fun hnone => by simp at hnone, ?_⟩
      intro c hc
      obtain rfl := Option.some.inj hc
      exact ⟨hok, Or.inl rfl⟩
    · rw [gate_lookup_of_ne hs hk, gate_lookup_of_ne hs hk]
      exact h2 k

theorem traces_sweep (SplitHostPort : String → Option (String × String)) (r : ℚ) (b : Int)
    (clients : Clients) (now : Time) (as : List Action) :
    traces SplitHostPort r b clients (Action.sweep now :: as) =
      traces SplitHostPort r b (sweep now clients).1 as := by
  rw [traces]

theorem traces_of_simulates (SplitHostPort : String → Option (String × String)) {r : ℚ}
    {b : Int} {gap : Int} (hb : 0 ≤ b) (hr : 0 ≤ r)
    (hrb : (b : ℚ) ≤ r * ((180000000000 - (gap : ℚ)) / 1000000000)) (as : List Action) :
    ∀ (T : Time) (ms mu : Clients), simulates r b gap T ms mu →
      timeOrderedFrom T as = true → readingsWithin gap as = true →
        traces SplitHostPort r b ms as =
          traces SplitHostPort r b mu (as.filter Action.isRequest) := by
  induction as with
  | nil => intro T ms mu _ _ _; rfl
  | cons a as ih =>
    intro T ms mu h hord hwithin
    simp only [timeOrderedFrom, Bool.and_eq_true, decide_eq_true_eq] at hord
    obtain ⟨⟨hT, hsn⟩, hrest⟩ := hord
    cases a with
    | request RemoteAddr seen now =>
      simp only [readingsWithin, Bool.and_eq_true, decide_eq_true_eq] at hwithin
      simp only [Action.start, Action.time] at hT hsn hrest
      have hstep := @simulates_request SplitHostPort r b gap T seen now ms mu hb hr hrb hT hsn
        hwithin.1 h RemoteAddr
      rw [List.filter_cons_of_pos (by rfl), traces_request, traces_request, hstep.1,
        ih now _ _ hstep.2 hrest hwithin.2]
    | sweep now =>
      simp only [readingsWithin] at hwithin
      simp only [Action.start, Action.time] at hT hrest
      rw [List.filter_cons_of_neg (by simp [Action.isRequest]), traces_sweep]
      exact ih now _ _ (simulates_sweep (simulates_mono hT h)) hrest hwithin

theorem simulates_empty (r : ℚ) (b : Int) (gap : Int) (T : Time) :
    simulates r b gap T ∅ ∅ := by
  intro ip
  exact ⟨fun _ => rfl, fun c hc => by simp at hc⟩

theorem gate_of_small_capacity {SplitHostPort : String → Option (String × String)} {r : ℚ}
    {b : Int} (hb : b < 1) (seen now : Time) (RemoteAddr : String) {clients : Clients}
    (hcap : capacityIs b clients) :
    (perClientRateLimiter SplitHostPort r b seen now RemoteAddr clients).2 =
        (if SplitHostPort RemoteAddr = none then parseFailureTrace else denyTrace) ∧
      capacityIs b (perClientRateLimiter SplitHostPort r b seen now RemoteAddr clients).1 := by
  cases hs : SplitHostPort RemoteAddr with
  | none =>
    rw [gate_parse_failure hs]
    exact ⟨by simp, hcap⟩
  | some p =>
    obtain ⟨ip, port⟩ := p
    have hc : (getOrCreate r b now clients ip).limiter.capacity = b := by
      cases hl : clients.lookup ip with
      | none => rw [getOrCreate_of_absent hl]; rfl
      | some c => rw [getOrCreate_of_lookup hl]; exact hcap ip c hl
    constructor
    · have hlt : (getOrCreate r b now clients ip).limiter.refilled now < 1 := by
        have h1 := refilled_le_capacity (getOrCreate r b now clients ip).limiter now
        rw [hc] at h1
        have h2 : (b : ℚ) < 1 := by exact_mod_cast hb
        linarith
      rw [(gate_trace_deny_iff hs).2 hlt]
      simp
    · intro k c hk
      by_cases hik : ip = k
      · subst hik
        rw [gate_lookup_self hs] at hk
        obtain rfl := Option.some.inj hk
        simp only
        rw [tryConsume_capacity, hc]
      · rw [gate_lookup_of_ne hs hik] at hk
        exact hcap k c hk

theorem capacityIs_sweep {b : Int} (now : Time) {clients : Clients}
    (hcap : capacityIs b clients) : capacityIs b (sweep now clients).1 := by
  intro k c hk
  rw [lookup_sweep] at hk
  cases hl : clients.lookup k with
  | none => rw [hl] at hk; simp at hk
  | some c2 =>
    rw [hl] at hk
    simp only at hk
    split at hk
    · simp at hk
    · obtain rfl := Option.some.inj hk
      exact hcap k c2 hl

theorem traces_of_small_capacity (SplitHostPort : String → Option (String × String)) {r : ℚ}
    {b : Int} (hb : b < 1) (as : List Action) :
    ∀ m1 m2 : Clients, capacityIs b m1 → capacityIs b m2 →
      traces SplitHostPort r b m1 as =
        traces SplitHostPort r b m2 (as.filter Action.isRequest) := by
  induction as with
  | nil => intro m1 m2 _ _; rfl
  | cons a as ih =>
    intro m1 m2 h1 h2
    cases a with
    | request RemoteAddr seen now =>
      have g1 := @gate_of_small_capacity SplitHostPort r b hb seen now RemoteAddr m1 h1
      have g2 := @gate_of_small_capacity SplitHostPort r b hb seen now RemoteAddr m2 h2
      rw [List.filter_cons_of_pos (by rfl), traces_request, traces_request, g1.1, g2.1,
        ih _ _ g1.2 g2.2]
    | sweep now =>
      rw [List.filter_cons_of_neg (by simp [Action.isRequest]), traces_sweep]
      exact ih _ _ (capacityIs_sweep now h1) h2

/-! ## Claims about a single request or a single sweep pass -/

/-- C5. A request whose remote address cannot be split gets exactly the trace
`c.JSON(500, parse error), c.Abort()`: the endpoint of the route is never run,
the mutex is never taken and the map is returned unchanged; and a response with
status 500 is produced only when the address fails to parse. -/
theorem parse_failure_response (SplitHostPort : String → Option (String × String)) (r : ℚ)
    (b : Int) (seen now : Time) (RemoteAddr : String) (clients : Clients) :
    (SplitHostPort RemoteAddr = none →
      perClientRateLimiter SplitHostPort r b seen now RemoteAddr clients =
          (clients, [Event.JSON 500 [("status", "error"), ("message", "Unable to parse IP address")],
            Event.Abort]) ∧
        ∀ endpoint : List Event,
          dispatch endpoint (perClientRateLimiter SplitHostPort r b seen now RemoteAddr clients).2
              false false =
            [Event.JSON 500 [("status", "error"), ("message", "Unable to parse IP address")],
              Event.Abort]) ∧
      (status (perClientRateLimiter SplitHostPort r b seen now RemoteAddr clients).2 = some 500 →
        SplitHostPort RemoteAddr = none) := by
  constructor
  · intro h
    rw [gate_parse_failure h]
    exact ⟨rfl, fun endpoint => rfl⟩
  · intro h
    cases hs : SplitHostPort RemoteAddr with
    | none => rfl
    | some p =>
      obtain ⟨ip, port⟩ := p
      rw [gate_parsed hs] at h
      split at h <;> simp [status, admitTrace, denyTrace] at h

/-- C5, at the address "localhost" (no port) on an empty map. -/
theorem parse_failure_response_witness :
    perClientRateLimiter splitAtColon 1 2 7 8 "localhost" ∅ =
      (∅, [Event.JSON 500 [("status", "error"), ("message", "Unable to parse IP address")],
        Event.Abort]) :=
  ((parse_failure_response splitAtColon 1 2 7 8 "localhost" ∅).1 (by decide)).1

/-- C8. After a request whose address parses to `ip`, the map holds an entry
for `ip` whose `lastSeen` is the instant `seen` that line 55 read for this
request, whatever the verdict and whether or not the entry existed before. -/
theorem lastSeen_refreshed (SplitHostPort : String → Option (String × String)) (r : ℚ)
    (b : Int) (seen now : Time) (RemoteAddr : String) (clients : Clients) (ip port : String)
    (h : SplitHostPort RemoteAddr = some (ip, port)) :
    ∃ c : client,
      (perClientRateLimiter SplitHostPort r b seen now RemoteAddr clients).1.lookup ip = some c ∧
        c.lastSeen = seen := by
  rw [gate_parsed h]
  exact ⟨_, AList.lookup_insert _, rfl⟩

/-- C8, for a new client whose request reads the clock at 7 and then at 8. -/
theorem lastSeen_refreshed_witness :
    ∃ c : client,
      (perClientRateLimiter splitAtColon 1 2 7 8 "10.0.0.1:80" ∅).1.lookup "10.0.0.1" =
          some c ∧
        c.lastSeen = 7 :=
  lastSeen_refreshed splitAtColon 1 2 7 8 "10.0.0.1:80" ∅ "10.0.0.1" "80" (by decide)

/-- C4. After one sweep pass at instant `now` an identifier is present exactly
when it was present before and its `lastSeen` is not more than three minutes
(180 * 10^9 ns) old; an entry that is kept is kept unchanged. -/
theorem sweep_correct (now : Time) (clients : Clients) (ip : String) :
    (sweep now clients).1.lookup ip =
      match clients.lookup ip with
      | some c => if now - c.lastSeen > 180000000000 then none else some c
      | none => none := by
  rw [lookup_sweep]
  rfl

/-- C10. On every path of the handler (parse failure, deny, admit) and of a
sweep pass the trace respects the mutex: each lock is followed by one unlock
before the path ends, no unlock happens while the mutex is free, and no
`c.JSON` or `c.Next` happens while it is held. -/
theorem lock_discipline (SplitHostPort : String → Option (String × String)) (r : ℚ)
    (b : Int) (seen now : Time) (RemoteAddr : String) (clients : Clients) :
    lockDiscipline false
          (perClientRateLimiter SplitHostPort r b seen now RemoteAddr clients).2 = true ∧
      lockDiscipline false (sweep now clients).2 = true := by
  refine ⟨?_, rfl⟩
  cases hs : SplitHostPort RemoteAddr with
  | none => rw [gate_parse_failure hs]; rfl
  | some p =>
    obtain ⟨ip, port⟩ := p
    rw [gate_trace hs]
    split <;> rfl

/-- C3. For two distinct identifiers `A` and `B`, a request of `A` leaves the
entry of `B` as it was (present or absent, same bucket, same `lastSeen`), and
in every sequence of actions the traces, hence the verdicts, of the requests
of `B` are the same as in the sequence without the requests of `A`. -/
theorem per_client_isolation (SplitHostPort : String → Option (String × String)) (r : ℚ)
    (b : Int) (A B : String) (hAB : A ≠ B) :
    (∀ (seen now : Time) (RemoteAddr port : String) (clients : Clients),
        SplitHostPort RemoteAddr = some (A, port) →
          (perClientRateLimiter SplitHostPort r b seen now RemoteAddr clients).1.lookup B =
            clients.lookup B) ∧
      ∀ (clients : Clients) (as : List Action),
        tracesFor SplitHostPort r b B clients as =
          tracesFor SplitHostPort r b B clients
            (as.filter (fun a => !a.isRequestFrom SplitHostPort A)) :=
  ⟨fun _ _ _ _ _ h => gate_lookup_of_ne h hAB,
    fun clients as => tracesFor_without SplitHostPort r b hAB as clients clients rfl⟩

/-- C1. A client the gate has not seen sends `b + 1` requests whose buckets are
probed at one instant `now`, `b >= 1`: the first `b` are admitted and the last
one is denied, whatever the rate and whatever the reading `seen` of line 55. -/
theorem burst_admission (SplitHostPort : String → Option (String × String)) (r : ℚ) (b : Int)
    (seen now : Time) (RemoteAddr ip port : String) (clients : Clients) (hb : 1 ≤ b)
    (hs : SplitHostPort RemoteAddr = some (ip, port)) (hnew : clients.lookup ip = none) :
    traces SplitHostPort r b clients
        (List.replicate (b.toNat + 1) (Action.request RemoteAddr seen now)) =
      List.replicate b.toNat [Event.Lock, Event.Unlock, Event.Next] ++
        [[Event.Lock, Event.Unlock,
          Event.JSON 429
            [("status", "Request Failed"), ("body", "The API is at capacity, try again later.")],
          Event.Abort]] := by
  have hcast : ((b.toNat : ℕ) : ℚ) = (b : ℚ) := by
    have h1 : ((b.toNat : ℕ) : Int) = b := Int.toNat_of_nonneg (by omega)
    exact_mod_cast h1
  have h := @drain_traces SplitHostPort r b seen now RemoteAddr ip port hs b.toNat clients
    (by rw [getOrCreate_of_absent hnew, hcast]; rfl) (le_of_eq hcast)
  exact h

/-- C1, with burst 2: admit, admit, deny. -/
theorem burst_admission_witness :
    traces splitAtColon 1 2 ∅
        [Action.request "10.0.0.1:80" 0 0, Action.request "10.0.0.1:80" 0 0,
          Action.request "10.0.0.1:80" 0 0] =
      [[Event.Lock, Event.Unlock, Event.Next], [Event.Lock, Event.Unlock, Event.Next],
        [Event.Lock, Event.Unlock,
          Event.JSON 429
            [("status", "Request Failed"), ("body", "The API is at capacity, try again later.")],
          Event.Abort]] :=
  burst_admission splitAtColon 1 2 0 0 "10.0.0.1:80" "10.0.0.1" "80" ∅ (by decide) (by decide)
    (by decide)

/-- C2. With rate `r > 0` and burst `b >= 1`, once `b` requests of a client
were admitted with their buckets probed at one instant `t0`, the next request
of that client, probed `d` nanoseconds later and served on any map holding the
same entry for it, is admitted exactly when `d / 10^9 >= 1 / r` seconds have
passed, and is denied otherwise; the readings `seen0` and `seen1` of line 55
play no part. -/
theorem refill_over_time (SplitHostPort : String → Option (String × String)) (r : ℚ) (b : Int)
    (seen0 seen1 t0 d : Int) (RemoteAddr ip port : String) (clients later : Clients)
    (hr : 0 < r)
    (hb : 1 ≤ b) (hs : SplitHostPort RemoteAddr = some (ip, port))
    (hcfg : ∀ c : client, clients.lookup ip = some c →
      c.limiter.rate = r ∧ c.limiter.capacity = b)
    (hdrain : traces SplitHostPort r b clients
        (List.replicate b.toNat (Action.request RemoteAddr seen0 t0)) =
      List.replicate b.toNat [Event.Lock, Event.Unlock, Event.Next])
    (hlater : later.lookup ip =
      (run SplitHostPort r b clients
        (List.replicate b.toNat (Action.request RemoteAddr seen0 t0))).lookup ip) :
    ((perClientRateLimiter SplitHostPort r b seen1 (t0 + d) RemoteAddr later).2 =
          [Event.Lock, Event.Unlock, Event.Next] ↔
        1 / r ≤ (d : ℚ) / 1000000000) ∧
      ((perClientRateLimiter SplitHostPort r b seen1 (t0 + d) RemoteAddr later).2 =
          [Event.Lock, Event.Unlock,
            Event.JSON 429
              [("status", "Request Failed"),
                ("body", "The API is at capacity, try again later.")],
            Event.Abort] ↔
        (d : ℚ) / 1000000000 < 1 / r) := by
  have hlook := drained_after_burst hs hb hcfg hdrain
  rw [← hlater] at hlook
  have hb1 : (1 : ℚ) ≤ (b : ℚ) := by exact_mod_cast hb
  have href : (getOrCreate r b (t0 + d) later ip).limiter.refilled (t0 + d) =
      min (b : ℚ) ((d : ℚ) / 1000000000 * r) := by
    rw [getOrCreate_of_lookup hlook]
    simp [TokenBucket.refilled, Second]
  have hiff : 1 ≤ (d : ℚ) / 1000000000 * r ↔ 1 / r ≤ (d : ℚ) / 1000000000 := by
    rw [div_le_iff₀ hr]
  constructor
  · rw [show ([Event.Lock, Event.Unlock, Event.Next] : List Event) = admitTrace from rfl,
      gate_trace_admit_iff hs, href, ← hiff, le_min_iff]
    exact ⟨fun h => h.2, fun h => ⟨hb1, h⟩⟩
  · rw [show ([Event.Lock, Event.Unlock,
            Event.JSON 429
              [("status", "Request Failed"),
                ("body", "The API is at capacity, try again later.")],
            Event.Abort] : List Event) = denyTrace from rfl,
      gate_trace_deny_iff hs, href, ← not_le, ← not_le, ← hiff, le_min_iff]
    exact ⟨fun h h2 => h ⟨hb1, h2⟩, fun h h2 => h h2.2⟩

/-- C2, with rate 1 and burst 2, drained at instant 0: a request 0.5 s later
is denied and a request 1.1 s later is admitted. -/
theorem refill_over_time_witness :
    (perClientRateLimiter splitAtColon 1 2 500000000 (0 + 500000000) "10.0.0.1:80"
          (run splitAtColon 1 2 ∅
            (List.replicate (2 : Int).toNat (Action.request "10.0.0.1:80" 0 0)))).2 =
        [Event.Lock, Event.Unlock,
          Event.JSON 429
            [("status", "Request Failed"), ("body", "The API is at capacity, try again later.")],
          Event.Abort] ∧
      (perClientRateLimiter splitAtColon 1 2 1100000000 (0 + 1100000000) "10.0.0.1:80"
          (run splitAtColon 1 2 ∅
            (List.replicate (2 : Int).toNat (Action.request "10.0.0.1:80" 0 0)))).2 =
        [Event.Lock, Event.Unlock, Event.Next] :=
  ⟨(refill_over_time splitAtColon 1 2 0 500000000 0 500000000 "10.0.0.1:80" "10.0.0.1" "80"
      ∅ _ (by norm_num) (by decide) (by decide) (by simp)
      (@fresh_burst_traces splitAtColon 1 2 0 0 "10.0.0.1:80" ∅ "10.0.0.1" "80" (by decide)
        (by decide) (by decide)) rfl).2.2 (by norm_num),
    (refill_over_time splitAtColon 1 2 0 1100000000 0 1100000000 "10.0.0.1:80" "10.0.0.1" "80"
      ∅ _ (by norm_num) (by decide) (by decide) (by simp)
      (@fresh_burst_traces splitAtColon 1 2 0 0 "10.0.0.1:80" ∅ "10.0.0.1" "80" (by decide)
        (by decide) (by decide)) rfl).1.2 (by norm_num)⟩

/-- C3, with burst 1: the client at 10.0.0.1 exhausts its budget, which
neither touches the entry of 10.0.0.2 nor changes the traces of its requests. -/
theorem per_client_isolation_witness :
    (perClientRateLimiter splitAtColon 1 1 0 0 "10.0.0.1:80" ∅).1.lookup "10.0.0.2" =
        (∅ : Clients).lookup "10.0.0.2" ∧
      tracesFor splitAtColon 1 1 "10.0.0.2" ∅
          [Action.request "10.0.0.1:80" 0 0, Action.request "10.0.0.1:80" 0 0,
            Action.request "10.0.0.2:80" 0 0] =
        tracesFor splitAtColon 1 1 "10.0.0.2" ∅
          ([Action.request "10.0.0.1:80" 0 0, Action.request "10.0.0.1:80" 0 0,
            Action.request "10.0.0.2:80" 0 0].filter
            (fun a => !a.isRequestFrom splitAtColon "10.0.0.1")) :=
  ⟨(per_client_isolation splitAtColon 1 1 "10.0.0.1" "10.0.0.2" (by decide)).1 0 0
      "10.0.0.1:80" "80" ∅ (by decide),
    (per_client_isolation splitAtColon 1 1 "10.0.0.1" "10.0.0.2" (by decide)).2 ∅ _⟩

/-- C7. For a client absent from the map and a sequence of actions in which no
sweep pass deletes its entry, the traces of its requests are those of the
verdicts of one single bucket with the rate and burst of the gate, created at
its first request and probed at the instants at which its requests probe
theirs; and the bucket stored in its entry at the end is that single bucket. -/
theorem idempotent_identifier_reuse (SplitHostPort : String → Option (String × String)) (r : ℚ)
    (b : Int) (ip : String) (clients : Clients) (as : List Action)
    (hnew : clients.lookup ip = none)
    (hkept : neverEvicted SplitHostPort r b ip clients as = true) :
    (tracesFor SplitHostPort r b ip clients as).map admitted =
        singleBucketVerdicts r b (requestTimes SplitHostPort ip as) ∧
      tracesFor SplitHostPort r b ip clients as =
        (singleBucketVerdicts r b (requestTimes SplitHostPort ip as)).map
          (fun verdict =>
            if verdict then [Event.Lock, Event.Unlock, Event.Next]
            else [Event.Lock, Event.Unlock,
              Event.JSON 429
                [("status", "Request Failed"),
                  ("body", "The API is at capacity, try again later.")],
              Event.Abort]) ∧
      ((run SplitHostPort r b clients as).lookup ip).map client.limiter =
        singleBucketAfter r b (requestTimes SplitHostPort ip as) := by
  have h := follows_bucket_of_absent SplitHostPort r b ip as clients hnew hkept
  refine ⟨?_, h.1, h.2⟩
  rw [h.1, List.map_map]
  conv_rhs => rw [← List.map_id (singleBucketVerdicts r b (requestTimes SplitHostPort ip as))]
  apply List.map_congr_left
  intro v _
  cases v <;> decide

/-- C7, for a new client whose two requests are separated by a sweep pass that
keeps its entry. -/
theorem idempotent_identifier_reuse_witness :
    (tracesFor splitAtColon 1 2 "10.0.0.1" ∅
          [Action.request "10.0.0.1:80" 0 5, Action.sweep 60000000000,
            Action.request "10.0.0.1:80" 61000000000 61000000005,
            Action.sweep 120000000000]).map admitted =
        singleBucketVerdicts 1 2
          (requestTimes splitAtColon "10.0.0.1"
            [Action.request "10.0.0.1:80" 0 5, Action.sweep 60000000000,
              Action.request "10.0.0.1:80" 61000000000 61000000005,
              Action.sweep 120000000000]) :=
  (idempotent_identifier_reuse splitAtColon 1 2 "10.0.0.1" ∅ _ (by decide) (by decide!)).1

/-- C6. For a request whose address parses, the route answers the deny trace
(status 429 with the capacity message, chain aborted, endpoint not run) exactly
when the bucket of the client denies, and otherwise forwards to the endpoint,
which answers 200. On `/ping_strict` (rate 1, burst 2) a new client sending
three requests within less than a second gets 200, 200, 429, and gets 200
again two seconds or more after the third; the instants `t0 .. t3` are those at
which the buckets are probed, and the readings `s0 .. s3` of line 55 play no
part. -/
theorem verdict_to_response (SplitHostPort : String → Option (String × String)) :
    (∀ (r : ℚ) (b : Int) (seen now : Time) (RemoteAddr ip port : String) (clients : Clients)
        (endpoint : List Event), SplitHostPort RemoteAddr = some (ip, port) →
        dispatch endpoint (perClientRateLimiter SplitHostPort r b seen now RemoteAddr clients).2
            false false =
          if ((getOrCreate r b now clients ip).limiter.tryConsume now).2 then
            [Event.Lock, Event.Unlock, Event.Next] ++ endpoint
          else
            [Event.Lock, Event.Unlock,
              Event.JSON 429
                [("status", "Request Failed"),
                  ("body", "The API is at capacity, try again later.")],
              Event.Abort]) ∧
      (∀ (seen now : Time) (RemoteAddr ip port : String) (clients : Clients),
        SplitHostPort RemoteAddr = some (ip, port) →
          status (pingStrict SplitHostPort seen now RemoteAddr clients).2 =
            if ((getOrCreate 1 2 now clients ip).limiter.tryConsume now).2 then some 200
            else some 429) ∧
      ∀ (RemoteAddr ip port : String) (clients : Clients) (s0 s1 s2 s3 t0 t1 t2 t3 : Time),
        SplitHostPort RemoteAddr = some (ip, port) → clients.lookup ip = none →
          t0 ≤ t1 → t1 ≤ t2 → t2 - t0 < 1000000000 → t2 + 2000000000 ≤ t3 →
            strictStatuses SplitHostPort clients
                [(RemoteAddr, s0, t0), (RemoteAddr, s1, t1), (RemoteAddr, s2, t2),
                  (RemoteAddr, s3, t3)] =
              [some 200, some 200, some 429, some 200] := by
  refine ⟨?_, ?_, ?_⟩
  · intro r b seen now RemoteAddr ip port clients endpoint hs
    rw [gate_trace hs]
    exact dispatch_verdictTrace endpoint _
  · intro seen now RemoteAddr ip port clients hs
    exact pingStrict_status hs
  · intro RemoteAddr ip port clients s0 s1 s2 s3 t0 t1 t2 t3 hs hnew h01 h12 hfast hwait
    have h := strictStatuses_of_absent hs (s0, t0) [(s1, t1), (s2, t2), (s3, t3)] clients hnew
    simp only [List.map_cons, List.map_nil] at h
    rw [strict_scenario_verdicts t0 t1 t2 t3 h01 h12 hfast hwait] at h
    exact h

/-- C6, the end-to-end scenario with three requests at instant 0 and a fourth
two seconds later. -/
theorem verdict_to_response_witness :
    strictStatuses splitAtColon ∅
        [("10.0.0.1:80", 0, 0), ("10.0.0.1:80", 0, 0), ("10.0.0.1:80", 0, 0),
          ("10.0.0.1:80", 2000000000, 2000000000)] =
      [some 200, some 200, some 429, some 200] :=
  (verdict_to_response splitAtColon).2.2 "10.0.0.1:80" "10.0.0.1" "80" ∅ 0 0 0 2000000000
    0 0 0 2000000000 (by decide) (by decide) (by decide) (by decide) (by decide) (by decide)

/-- C9 as stated fails. With rate 1/180 and burst 1, so that `rate * 180 = burst`,
a client is admitted by a request that reads the clock at 0 ns for `lastSeen`
and at 2 ns inside `Allow`; the sweep pass at 180 s + 1 ns finds the entry
more than three minutes old and deletes it; the client returns at that same
instant. With the sweep pass it meets a fresh bucket and is admitted; without
it, its bucket has refilled for 180 s - 1 ns only and it is denied. -/
theorem eviction_changes_verdict :
    ((1 : Int) : ℚ) ≤ (1 / 180 : ℚ) * 180 ∧
      timeOrdered
          [Action.request "10.0.0.1:80" 0 2, Action.sweep 180000000001,
            Action.request "10.0.0.1:80" 180000000001 180000000001] = true ∧
      traces splitAtColon (1 / 180) 1 ∅
          [Action.request "10.0.0.1:80" 0 2, Action.sweep 180000000001,
            Action.request "10.0.0.1:80" 180000000001 180000000001] =
        [[Event.Lock, Event.Unlock, Event.Next], [Event.Lock, Event.Unlock, Event.Next]] ∧
      traces splitAtColon (1 / 180) 1 ∅
          ([Action.request "10.0.0.1:80" 0 2, Action.sweep 180000000001,
            Action.request "10.0.0.1:80" 180000000001 180000000001].filter
            Action.isRequest) =
        [[Event.Lock, Event.Unlock, Event.Next],
          [Event.Lock, Event.Unlock,
            Event.JSON 429
              [("status", "Request Failed"),
                ("body", "The API is at capacity, try again later.")],
            Event.Abort]] := by
  refine ⟨by norm_num, by decide, by decide!, by decide!⟩

/-- C9, amended. When the two clock readings of every request (line 55 and
inside `Allow`) are at most `gap <= 180 s` apart and
`rate * (180 s - gap) >= burst`, then for every time-ordered sequence of
requests and sweep passes on a gate that starts with an empty map, the trace of
every request, hence its verdict, is the one it gets in the same sequence with
all sweep passes removed. With `gap = 0` the condition is `rate * 180 >= burst`. -/
theorem eviction_preserves_verdicts (SplitHostPort : String → Option (String × String))
    (r : ℚ) (b : Int) (gap : Int) (as : List Action) (hgap : gap ≤ 180000000000)
    (hrate : (b : ℚ) ≤ r * ((180000000000 - (gap : ℚ)) / 1000000000))
    (hordered : timeOrdered as = true) (hwithin : readingsWithin gap as = true) :
    traces SplitHostPort r b ∅ as =
      traces SplitHostPort r b ∅ (as.filter Action.isRequest) := by
  by_cases hb : 1 ≤ b
  · have hbq : (1 : ℚ) ≤ (b : ℚ) := by exact_mod_cast hb
    have hX : (0 : ℚ) ≤ (180000000000 - (gap : ℚ)) / 1000000000 := by
      apply div_nonneg _ (by norm_num)
      have : (gap : ℚ) ≤ 180000000000 := by exact_mod_cast hgap
      linarith
    have hr : 0 ≤ r := by
      by_contra hneg
      have hle : r * ((180000000000 - (gap : ℚ)) / 1000000000) ≤ 0 :=
        mul_nonpos_of_nonpos_of_nonneg (le_of_lt (not_le.1 hneg)) hX
      linarith
    cases as with
    | nil => rfl
    | cons a as =>
      exact traces_of_simulates SplitHostPort (by omega) hr hrate (a :: as) a.start ∅ ∅
        (simulates_empty r b gap a.start) hordered hwithin
  · exact traces_of_small_capacity SplitHostPort (by omega) as ∅ ∅
      (fun ip c hc => by simp at hc) (fun ip c hc => by simp at hc)

/-- C9, amended, on the strict profile (rate 1, burst 2) with readings at most
one second apart: a client drains its budget, is evicted by the sweep pass at
181 s and comes back. -/
theorem eviction_preserves_verdicts_witness :
    traces splitAtColon 1 2 ∅
        [Action.request "10.0.0.1:80" 0 1000, Action.request "10.0.0.1:80" 2000 3000,
          Action.sweep 181000000000,
          Action.request "10.0.0.1:80" 181000000000 181000000500] =
      traces splitAtColon 1 2 ∅
        ([Action.request "10.0.0.1:80" 0 1000, Action.request "10.0.0.1:80" 2000 3000,
          Action.sweep 181000000000,
          Action.request "10.0.0.1:80" 181000000000 181000000500].filter
          Action.isRequest) :=
  eviction_preserves_verdicts splitAtColon 1 2 1000000000 _ (by decide) (by norm_num)
    (by decide) (by decide)

/-- The rate condition of C9 cannot be dropped either: with rate 0 and burst 2
the same sequence ends with an admit when the sweep pass runs and with a deny
when it does not, even when the two readings of every request coincide. -/
theorem eviction_changes_verdict_at_rate_zero :
    traces splitAtColon 0 2 ∅
        [Action.request "10.0.0.1:80" 0 0, Action.request "10.0.0.1:80" 0 0,
          Action.sweep 181000000000, Action.request "10.0.0.1:80" 181000000000 181000000000] =
        [admitTrace, admitTrace, admitTrace] ∧
      traces splitAtColon 0 2 ∅
        [Action.request "10.0.0.1:80" 0 0, Action.request "10.0.0.1:80" 0 0,
          Action.request "10.0.0.1:80" 181000000000 181000000000] =
        [admitTrace, admitTrace, denyTrace] := by
  constructor <;> decide!

/-- The sweep threshold is strict: an entry seen exactly three minutes ago is
kept, one seen a nanosecond earlier is deleted. -/
theorem sweep_threshold_boundary :
    ((sweep 180000000000
          (perClientRateLimiter splitAtColon 1 2 0 0 "10.0.0.1:80" ∅).1).1.lookup
          "10.0.0.1").isSome = true ∧
      ((sweep 180000000001
          (perClientRateLimiter splitAtColon 1 2 0 0 "10.0.0.1:80" ∅).1).1.lookup
          "10.0.0.1").isSome = false := by
  constructor <;> decide!

end RateLimiter
